import Mathlib

/-
Verification of the transaction-pool core (`transaction_pool_inner.rs`).

The embedding below models the pool data structures shallowly:
 * machine integers (`U256`, `u128`, `usize`, `u64`) become `Nat`; wrapping
   arithmetic is written with an explicit `% 2 ^ w` where the source wraps;
 * hash maps become association lists over `Nat` keys (addresses and
   transaction hashes are opaque identifiers, modelled as `Nat`);
 * the per-sender `NoncePool` (whose implementation lives outside the
   excerpt) is modelled from the spec as a nonce-sorted list of entries;
 * fallible or panicking code returns `Option` / `Except`.
-/

namespace ConfluxTxPool

/-- Fields of a `SignedTransaction` observed by the pool. -/
structure STx where
  sender : Nat
  nonce : Nat
  gasPrice : Nat
  gasLimit : Nat
  value : Nat
  storageLimit : Nat
  hash : Nat
  rlpSize : Nat
  deriving DecidableEq, Repr

/-- An entry of the deferred pool: `TxWithReadyInfo` from `nonce_pool.rs`. -/
structure TxWithReadyInfo where
  transaction : STx
  packed : Bool
  sponsoredGas : Nat
  sponsoredStorage : Nat
  deriving DecidableEq, Repr

/-! ### Association lists standing in for `HashMap` -/

/-- Lookup in an association list (`HashMap::get`). -/
def alookup {α : Type} : List (Nat × α) → Nat → Option α
  | [], _ => none
  | (k, v) :: rest, k2 => if k = k2 then some v else alookup rest k2

/-- Insert-or-replace in an association list (`HashMap::insert`). -/
def aset {α : Type} : List (Nat × α) → Nat → α → List (Nat × α)
  | [], k, v => [(k, v)]
  | (k2, v2) :: rest, k, v =>
    if k2 = k then (k2, v) :: rest else (k2, v2) :: aset rest k v

/-- Remove a key from an association list (`HashMap::remove`). -/
def aerase {α : Type} : List (Nat × α) → Nat → List (Nat × α)
  | [], _ => []
  | (k2, v2) :: rest, k =>
    if k2 = k then rest else (k2, v2) :: aerase rest k

theorem alookup_aset_self {α : Type} (l : List (Nat × α)) (k : Nat) (v : α) :
    alookup (aset l k v) k = some v := by
  induction l with
  | nil => simp [aset, alookup]
  | cons p rest ih =>
    by_cases h : p.1 = k
    · simp [aset, alookup, h]
    · simp [aset, alookup, h, ih]

theorem alookup_aset_ne {α : Type} (l : List (Nat × α)) (k k2 : Nat) (v : α)
    (h : k ≠ k2) : alookup (aset l k v) k2 = alookup l k2 := by
  induction l with
  | nil => simp [aset, alookup, h]
  | cons p rest ih =>
    obtain ⟨pk, pv⟩ := p
    by_cases h2 : pk = k
    · subst h2
      simp [aset, alookup, h]
    · simp [aset, alookup, h2, ih]

theorem aset_lookup_self {α : Type} (l : List (Nat × α)) (k : Nat) (v : α)
    (h : alookup l k = some v) : aset l k v = l := by
  induction l with
  | nil => simp [alookup] at h
  | cons p rest ih =>
    by_cases h2 : p.1 = k
    · simp [alookup, h2] at h
      cases p
      simp_all [aset]
    · simp [alookup, h2] at h
      simp [aset, h2, ih h]

/-! ### NoncePool: per-sender bucket, modelled from the spec -/

/-- One sender's bucket: its pending entries, kept sorted by nonce. -/
abbrev Bucket := List TxWithReadyInfo

/-- Strictly-increasing nonce order: the well-formedness of a bucket. -/
def BucketSorted (b : Bucket) : Prop :=
  List.Pairwise (fun e1 e2 => e1.transaction.nonce < e2.transaction.nonce) b

instance (b : Bucket) : Decidable (BucketSorted b) := by
  unfold BucketSorted
  infer_instance

/-- Lookup by nonce (`NoncePool::get_tx_by_nonce` / `check_nonce_exists`). -/
def bucketLookup (b : Bucket) (n : Nat) : Option TxWithReadyInfo :=
  b.find? (fun e => e.transaction.nonce == n)

/-- Insert an entry at a fresh nonce, keeping the bucket sorted. -/
def bucketAdd (tx : TxWithReadyInfo) : Bucket → Bucket
  | [] => [tx]
  | e :: rest =>
    if tx.transaction.nonce < e.transaction.nonce then tx :: e :: rest
    else e :: bucketAdd tx rest

/-- Replace the entry whose nonce matches `tx`. -/
def bucketReplace (tx : TxWithReadyInfo) : Bucket → Bucket
  | [] => []
  | e :: rest =>
    if e.transaction.nonce = tx.transaction.nonce then tx :: rest
    else e :: bucketReplace tx rest

/-- Failure payloads of an insert (`InsertResult::Failed` messages). -/
inductive FailReason
  | poolFull
  | replaceUnderpriced (minGasPrice : Nat)
  deriving DecidableEq, Repr

/-- Result of a deferred-pool insert (`nonce_pool::InsertResult`). -/
inductive InsertResult
  | NewAdded
  | Updated (replaced : TxWithReadyInfo)
  | Failed (reason : FailReason)
  deriving DecidableEq, Repr

/-- Modelled from the spec: `NoncePool::insert` is not part of the excerpt.
Spec §4.1: a fresh nonce is `NewAdded`; an occupied nonce is replaced
(`Updated prev`) iff `force` is set or the new gas price is strictly higher,
and otherwise fails naming the existing gas price as the bound to exceed
(this matches `test_deferred_pool_insert_and_remove`). -/
def noncePoolInsert (b : Bucket) (tx : TxWithReadyInfo) (force : Bool) :
    InsertResult × Bucket :=
  match bucketLookup b tx.transaction.nonce with
  | none => (.NewAdded, bucketAdd tx b)
  | some old =>
    if force || decide (old.transaction.gasPrice < tx.transaction.gasPrice)
    then (.Updated old, bucketReplace tx b)
    else (.Failed (.replaceUnderpriced old.transaction.gasPrice), b)

/-- Cost an entry charges against the sender's balance when testing
readiness: `value + gas_price * (gas_limit - sponsored_gas) +
storage_unit * (storage_limit - sponsored_storage)` (spec §4.1). -/
def txCost (su : Nat) (e : TxWithReadyInfo) : Nat :=
  e.transaction.value + e.transaction.gasPrice * (e.transaction.gasLimit - e.sponsoredGas)
    + su * (e.transaction.storageLimit - e.sponsoredStorage)

/-- Modelled from the spec: the readiness walk of
`NoncePool::recalculate_readiness_with_local_info` (spec §4.1).  Walk the
entries at contiguous nonces starting at `expected` while each entry's cost
fits in the remaining balance; the first unpacked entry of that run is the
ready transaction. -/
def readyWalk (su : Nat) : Nat → Nat → Bucket → Option STx
  | _, _, [] => none
  | expected, balance, e :: rest =>
    if e.transaction.nonce = expected then
      if txCost su e ≤ balance then
        if e.packed then readyWalk su (expected + 1) (balance - txCost su e) rest
        else some e.transaction
      else none
    else none

/-- Modelled from the spec: `NoncePool::recalculate_readiness_with_local_info`
restricted to the entries at nonce `≥ baseNonce` (lower nonces never take part
in the walk). -/
def noncePoolRecalculate (su : Nat) (b : Bucket) (baseNonce balance : Nat) :
    Option STx :=
  readyWalk su baseNonce balance (b.filter (fun e => baseNonce ≤ e.transaction.nonce))

/-! ### DeferredPool (source lines 61–201) -/

/-- The deferred pool: one bucket per sender address. -/
abbrev DeferredPool := List (Nat × Bucket)

/-- `DeferredPool::insert` (source lines 75–80): get-or-create the sender's
bucket, then delegate to the bucket insert. -/
def dpInsert (dp : DeferredPool) (tx : TxWithReadyInfo) (force : Bool) :
    InsertResult × DeferredPool :=
  let bucket := (alookup dp tx.transaction.sender).getD []
  let r := noncePoolInsert bucket tx force
  (r.1, aset dp tx.transaction.sender r.2)

/-- `DeferredPool::contain_address`. -/
def dpContains (dp : DeferredPool) (addr : Nat) : Bool :=
  (alookup dp addr).isSome

/-- `DeferredPool::check_sender_and_nonce_exists`. -/
def dpNonceExists (dp : DeferredPool) (sender nonce : Nat) : Bool :=
  match alookup dp sender with
  | some bucket => (bucketLookup bucket nonce).isSome
  | none => false

/-- `NoncePool::get_lowest_nonce_tx` on a sorted bucket is its head entry. -/
def bucketLowest (b : Bucket) : Option TxWithReadyInfo := b.head?

/-- `DeferredPool::get_lowest_nonce_tx`. -/
def dpLowestTx (dp : DeferredPool) (addr : Nat) : Option TxWithReadyInfo :=
  (alookup dp addr).bind bucketLowest

/-- `DeferredPool::get_lowest_nonce`. -/
def dpLowestNonce (dp : DeferredPool) (addr : Nat) : Option Nat :=
  (dpLowestTx dp addr).map (fun e => e.transaction.nonce)

/-- `DeferredPool::remove_lowest_nonce`: drop the bucket once it is empty. -/
def dpRemoveLowest (dp : DeferredPool) (addr : Nat) :
    Option TxWithReadyInfo × DeferredPool :=
  match alookup dp addr with
  | none => (none, dp)
  | some [] => (none, aerase dp addr)
  | some [e] => (some e, aerase dp addr)
  | some (e :: rest) => (some e, aset dp addr rest)

/-- `DeferredPool::count_less` (`NoncePool::count_less`). -/
def dpCountLess (dp : DeferredPool) (addr nonce : Nat) : Nat :=
  match alookup dp addr with
  | some bucket => bucket.countP (fun e => e.transaction.nonce < nonce)
  | none => 0

/-- `DeferredPool::check_tx_packed`. -/
def dpCheckPacked (dp : DeferredPool) (addr nonce : Nat) : Bool :=
  match alookup dp addr with
  | some bucket =>
    match bucketLookup bucket nonce with
    | some e => e.packed
    | none => false
  | none => false

/-- `DeferredPool::recalculate_readiness_with_local_info`
(source lines 133–141): absent bucket means no ready transaction. -/
def dpRecalculateReadiness (su : Nat) (dp : DeferredPool) (addr nonce balance : Nat) :
    Option STx :=
  match alookup dp addr with
  | some bucket => noncePoolRecalculate su bucket nonce balance
  | none => none

/-! ### Declarative characterization of readiness (for claim C1) -/

/-- Cost charged by the entry at nonce `n` (zero when absent; only used
under hypotheses that the entry exists). -/
def entryCostAt (su : Nat) (b : Bucket) (n : Nat) : Nat :=
  match bucketLookup b n with
  | some e => txCost su e
  | none => 0

/-- Cumulative required balance of the entries at `base, base+1, …, base+k-1`. -/
def runCost (su : Nat) (b : Bucket) (base : Nat) : Nat → Nat
  | 0 => 0
  | k + 1 => runCost su b base k + entryCostAt su b (base + k)

/-- Declaratively: `t` is the first entry with `packed == false` in the
contiguous run of nonces starting at `base` whose cumulative required
balance fits within `balance`. -/
def IsFirstReady (su : Nat) (b : Bucket) (base balance : Nat) (t : STx) : Prop :=
  ∃ k e, bucketLookup b (base + k) = some e ∧ e.packed = false ∧ e.transaction = t ∧
    (∀ i, i < k → ∃ e2, bucketLookup b (base + i) = some e2 ∧ e2.packed = true) ∧
    runCost su b base (k + 1) ≤ balance

theorem bucketLookup_cons_self (e : TxWithReadyInfo) (rest : Bucket) (n : Nat)
    (h : e.transaction.nonce = n) : bucketLookup (e :: rest) n = some e := by
  simp [bucketLookup, List.find?_cons_of_pos, h]

theorem bucketLookup_cons_ne (e : TxWithReadyInfo) (rest : Bucket) (n : Nat)
    (h : e.transaction.nonce ≠ n) :
    bucketLookup (e :: rest) n = bucketLookup rest n := by
  simp [bucketLookup, List.find?_cons_of_neg, h]

theorem bucketLookup_eq_none (b : Bucket) (n : Nat)
    (h : ∀ e ∈ b, e.transaction.nonce ≠ n) : bucketLookup b n = none := by
  rw [bucketLookup, List.find?_eq_none]
  intro e he
  simpa using h e he

theorem entryCostAt_cons_ne (su : Nat) (e : TxWithReadyInfo) (rest : Bucket) (n : Nat)
    (h : e.transaction.nonce ≠ n) :
    entryCostAt su (e :: rest) n = entryCostAt su rest n := by
  simp [entryCostAt, bucketLookup_cons_ne _ _ _ h]

theorem runCost_cons (su : Nat) (e : TxWithReadyInfo) (rest : Bucket) (expected : Nat)
    (h : e.transaction.nonce = expected) :
    ∀ k, runCost su (e :: rest) expected (k + 1)
      = txCost su e + runCost su rest (expected + 1) k := by
  subst h
  intro k
  induction k with
  | zero =>
    show runCost su (e :: rest) _ 0 + entryCostAt su (e :: rest) _ = _
    simp [runCost, entryCostAt, bucketLookup_cons_self _ _ _ rfl]
  | succ k ih =>
    show runCost su (e :: rest) _ (k + 1) + entryCostAt su (e :: rest) _ = _
    rw [ih, entryCostAt_cons_ne su e rest _ (by omega),
      show e.transaction.nonce + (k + 1) = (e.transaction.nonce + 1) + k by omega]
    show _ = txCost su e + (runCost su rest _ k + entryCostAt su rest _)
    omega

theorem runCost_first_le (su : Nat) (b : Bucket) (base : Nat) :
    ∀ k, entryCostAt su b base ≤ runCost su b base (k + 1) := by
  intro k
  induction k with
  | zero => simp [runCost]
  | succ k ih =>
    calc entryCostAt su b base ≤ runCost su b base (k + 1) := ih
      _ ≤ runCost su b base (k + 1) + entryCostAt su b (base + (k + 1)) :=
        Nat.le_add_right _ _

theorem readyWalk_iff (su : Nat) :
    ∀ (l : Bucket) (expected balance : Nat), BucketSorted l →
      (∀ e ∈ l, expected ≤ e.transaction.nonce) →
      ∀ t, (readyWalk su expected balance l = some t ↔
        IsFirstReady su l expected balance t) := by
  intro l
  induction l with
  | nil =>
    intro expected balance _ _ t
    constructor
    · intro h
      simp [readyWalk] at h
    · rintro ⟨k, e, he, -⟩
      simp [bucketLookup] at he
  | cons e rest ih =>
    intro expected balance hs hge t
    have hrs : BucketSorted rest := hs.of_cons
    have hlt : ∀ f ∈ rest, e.transaction.nonce < f.transaction.nonce :=
      (List.pairwise_cons.mp hs).1
    by_cases h1 : e.transaction.nonce = expected
    · by_cases h2 : txCost su e ≤ balance
      · by_cases h3 : e.packed
        · -- packed head: the walk skips it
          rw [readyWalk]
          simp only [h1, if_true, h2, if_pos, h3]
          rw [ih (expected + 1) (balance - txCost su e) hrs
            (fun f hf => by have := hlt f hf; omega) t]
          constructor
          · rintro ⟨k, f, hf, hfp, hft, hprev, hcost⟩
            refine ⟨k + 1, f, ?_, hfp, hft, ?_, ?_⟩
            · rw [show expected + (k + 1) = (expected + 1) + k by omega,
                bucketLookup_cons_ne _ _ _ (by omega)]
              exact hf
            · intro i hi
              cases i with
              | zero =>
                exact ⟨e, by rw [Nat.add_zero]; exact bucketLookup_cons_self _ _ _ h1, h3⟩
              | succ j =>
                obtain ⟨e2, he2, hp2⟩ := hprev j (by omega)
                refine ⟨e2, ?_, hp2⟩
                rw [show expected + (j + 1) = (expected + 1) + j by omega,
                  bucketLookup_cons_ne _ _ _ (by omega)]
                exact he2
            · rw [runCost_cons su e rest expected h1 (k + 1)]
              omega
          · rintro ⟨k, f, hf, hfp, hft, hprev, hcost⟩
            cases k with
            | zero =>
              rw [Nat.add_zero, bucketLookup_cons_self _ _ _ h1] at hf
              cases hf
              rw [h3] at hfp
              cases hfp
            | succ j =>
              refine ⟨j, f, ?_, hfp, hft, ?_, ?_⟩
              · rw [show expected + (j + 1) = (expected + 1) + j by omega,
                  bucketLookup_cons_ne _ _ _ (by omega)] at hf
                exact hf
              · intro i hi
                obtain ⟨e2, he2, hp2⟩ := hprev (i + 1) (by omega)
                refine ⟨e2, ?_, hp2⟩
                rw [show expected + (i + 1) = (expected + 1) + i by omega,
                  bucketLookup_cons_ne _ _ _ (by omega)] at he2
                exact he2
              · rw [runCost_cons su e rest expected h1 (j + 1)] at hcost
                omega
        · -- unpacked affordable head: it is the ready tx
          rw [readyWalk]
          simp only [h1, if_true, h2, if_pos, h3, if_neg, Bool.false_eq_true,
            if_false]
          constructor
          · intro h
            have ht : e.transaction = t := by
              injection h
            refine ⟨0, e, ?_, by simpa using h3, ht, by omega, ?_⟩
            · rw [Nat.add_zero]
              exact bucketLookup_cons_self _ _ _ h1
            · show runCost su (e :: rest) expected 0 + entryCostAt su (e :: rest) (expected + 0) ≤ balance
              simpa [runCost, entryCostAt, bucketLookup_cons_self _ _ _ h1] using h2
          · rintro ⟨k, f, hf, hfp, hft, hprev, -⟩
            cases k with
            | zero =>
              rw [Nat.add_zero, bucketLookup_cons_self _ _ _ h1] at hf
              cases hf
              rw [hft]
            | succ j =>
              obtain ⟨e2, he2, hp2⟩ := hprev 0 (by omega)
              rw [Nat.add_zero, bucketLookup_cons_self _ _ _ h1] at he2
              cases he2
              simp [hp2] at h3
      · -- unaffordable head: no ready tx
        rw [readyWalk]
        simp only [h1, if_true, h2, if_neg, if_pos]
        constructor
        · intro h
          cases h
        · rintro ⟨k, f, hf, hfp, hft, hprev, hcost⟩
          exfalso
          have h4 := runCost_first_le su (e :: rest) expected k
          rw [show entryCostAt su (e :: rest) expected = txCost su e by
            simp [entryCostAt, bucketLookup_cons_self _ _ _ h1]] at h4
          omega
    · -- no entry at `expected`
      have hgt : expected < e.transaction.nonce :=
        lt_of_le_of_ne (hge e (by simp)) (fun hc => h1 hc.symm)
      have hnone : bucketLookup (e :: rest) expected = none := by
        apply bucketLookup_eq_none
        intro f hf
        rcases List.mem_cons.mp hf with rfl | hf2
        · exact h1
        · have := hlt f hf2
          omega
      rw [readyWalk]
      simp only [h1, if_neg, if_false]
      constructor
      · intro h
        cases h
      · rintro ⟨k, f, hf, hfp, hft, hprev, hcost⟩
        exfalso
        cases k with
        | zero =>
          rw [Nat.add_zero, hnone] at hf
          cases hf
        | succ j =>
          obtain ⟨e2, he2, -⟩ := hprev 0 (by omega)
          rw [Nat.add_zero, hnone] at he2
          cases he2

theorem find?_filter_eq {α : Type} (l : List α) (p q : α → Bool)
    (h : ∀ e, p e = true → q e = true) :
    (l.filter q).find? p = l.find? p := by
  induction l with
  | nil => rfl
  | cons e rest ih =>
    by_cases hq : q e = true
    · rw [List.filter_cons_of_pos hq]
      by_cases hp : p e = true
      · rw [List.find?_cons_of_pos _ hp, List.find?_cons_of_pos _ hp]
      · rw [List.find?_cons_of_neg _ (by simpa using hp),
          List.find?_cons_of_neg _ (by simpa using hp), ih]
    · have hp : p e = false := by
        cases hpe : p e
        · rfl
        · exact absurd (h e hpe) hq
      rw [List.filter_cons_of_neg (by simpa using hq),
        List.find?_cons_of_neg _ (by simp [hp]), ih]

theorem bucketLookup_filter (b : Bucket) (base n : Nat) (h : base ≤ n) :
    bucketLookup (b.filter (fun e => base ≤ e.transaction.nonce)) n
      = bucketLookup b n := by
  apply find?_filter_eq
  intro e hp
  have h2 : e.transaction.nonce = n := by simpa using hp
  simpa [h2] using h

theorem runCost_filter (su : Nat) (b : Bucket) (base : Nat) :
    ∀ k, runCost su (b.filter (fun e => base ≤ e.transaction.nonce)) base k
      = runCost su b base k := by
  intro k
  induction k with
  | zero => rfl
  | succ k ih =>
    show runCost _ _ _ k + entryCostAt _ _ (base + k)
      = runCost su b base k + entryCostAt su b (base + k)
    rw [ih]
    unfold entryCostAt
    rw [bucketLookup_filter b base (base + k) (Nat.le_add_right _ _)]

theorem IsFirstReady_filter (su : Nat) (b : Bucket) (base balance : Nat) (t : STx) :
    IsFirstReady su (b.filter (fun e => base ≤ e.transaction.nonce)) base balance t ↔
      IsFirstReady su b base balance t := by
  unfold IsFirstReady
  constructor
  · rintro ⟨k, f, hf, hfp, hft, hprev, hc⟩
    refine ⟨k, f, ?_, hfp, hft, ?_, ?_⟩
    · rw [← bucketLookup_filter b base _ (Nat.le_add_right _ _)]
      exact hf
    · intro i hi
      obtain ⟨e2, he2, hp2⟩ := hprev i hi
      refine ⟨e2, ?_, hp2⟩
      rw [← bucketLookup_filter b base _ (Nat.le_add_right _ _)]
      exact he2
    · rw [← runCost_filter su b base (k + 1)]
      exact hc
  · rintro ⟨k, f, hf, hfp, hft, hprev, hc⟩
    refine ⟨k, f, ?_, hfp, hft, ?_, ?_⟩
    · rw [bucketLookup_filter b base _ (Nat.le_add_right _ _)]
      exact hf
    · intro i hi
      obtain ⟨e2, he2, hp2⟩ := hprev i hi
      refine ⟨e2, ?_, hp2⟩
      rw [bucketLookup_filter b base _ (Nat.le_add_right _ _)]
      exact he2
    · rw [runCost_filter su b base (k + 1)]
      exact hc

theorem noncePoolRecalculate_iff (su : Nat) (b : Bucket) (base balance : Nat)
    (hs : BucketSorted b) (t : STx) :
    noncePoolRecalculate su b base balance = some t ↔
      IsFirstReady su b base balance t := by
  unfold noncePoolRecalculate
  rw [readyWalk_iff su _ base balance (hs.filter _)
    (fun f hf => by rw [List.mem_filter] at hf; simpa using hf.2) t]
  exact IsFirstReady_filter su b base balance t

/-! ### Concrete data mirroring the in-source unit tests -/

/-- An entry shaped like `new_test_tx_with_read_info` from the source tests:
gas limit 50000, no storage, no sponsorship. -/
def mkEntry (nonce gp value : Nat) (pk : Bool) : TxWithReadyInfo :=
  { transaction :=
      { sender := 1, nonce := nonce, gasPrice := gp, gasLimit := 50000,
        value := value, storageLimit := 0, hash := 100 + nonce, rlpSize := 200 },
    packed := pk, sponsoredGas := 0, sponsoredStorage := 0 }

/-- Alice's bucket from `test_deferred_pool_recalculate_readiness` before
`tx3` is inserted: nonces 5 and 6 packed, 8 and 9 unpacked. -/
def aliceBucket4 : Bucket :=
  [mkEntry 5 10 10000 true, mkEntry 6 10 10000 true,
   mkEntry 8 10 10000 false, mkEntry 9 10 10000 false]

/-- The same bucket after `tx3` (nonce 7, packed) is inserted. -/
def aliceBucket5 : Bucket :=
  [mkEntry 5 10 10000 true, mkEntry 6 10 10000 true, mkEntry 7 10 10000 true,
   mkEntry 8 10 10000 false, mkEntry 9 10 10000 false]

theorem srcTestReadiness1 : noncePoolRecalculate 1 aliceBucket4 5 2040000 = none := by
  decide

theorem srcTestReadiness2 : noncePoolRecalculate 1 aliceBucket4 7 2040000 = none := by
  decide

theorem srcTestReadiness3 :
    noncePoolRecalculate 1 aliceBucket4 8 2040000
      = some (mkEntry 8 10 10000 false).transaction := by
  decide

theorem srcTestReadiness4 :
    noncePoolRecalculate 1 aliceBucket5 4 2040000 = none := by
  decide

theorem srcTestReadiness5 :
    noncePoolRecalculate 1 aliceBucket5 5 2040000
      = some (mkEntry 8 10 10000 false).transaction := by
  decide

theorem srcTestReadiness6 :
    noncePoolRecalculate 1 aliceBucket5 9 2040000
      = some (mkEntry 9 10 10000 false).transaction := by
  decide

theorem srcTestReadiness7 : noncePoolRecalculate 1 aliceBucket5 10 2040000 = none := by
  decide

theorem srcTestReadiness8 : noncePoolRecalculate 1 aliceBucket5 5 2039999 = none := by
  decide

theorem srcTestReplace :
    (noncePoolInsert [mkEntry 2 11 100 false] (mkEntry 2 10 100 false) false).1
      = .Failed (.replaceUnderpriced 11) := by
  decide

/-! ### Claim C1 -/

/-- C1: `recalculate_readiness_with_local_info` returns `None` when no entry
exists at exactly `base_nonce`; otherwise it returns exactly the first
unpacked entry inside the contiguous run of nonces starting at `base_nonce`
whose cumulative required balance fits within `balance`, and `None` when no
such entry exists (every entry of the run packed, or the run empty because
its first entry is unaffordable). -/
theorem claim_C1 (su : Nat) (dp : DeferredPool) (addr baseNonce balance : Nat)
    (bucket : Bucket) (hb : alookup dp addr = some bucket)
    (hs : BucketSorted bucket) :
    (∀ t, dpRecalculateReadiness su dp addr baseNonce balance = some t ↔
        IsFirstReady su bucket baseNonce balance t) ∧
    (bucketLookup bucket baseNonce = none →
        dpRecalculateReadiness su dp addr baseNonce balance = none) ∧
    ((∀ t, ¬ IsFirstReady su bucket baseNonce balance t) →
        dpRecalculateReadiness su dp addr baseNonce balance = none) := by
  have hmain : ∀ t, dpRecalculateReadiness su dp addr baseNonce balance = some t ↔
      IsFirstReady su bucket baseNonce balance t := by
    intro t
    simp only [dpRecalculateReadiness, hb]
    exact noncePoolRecalculate_iff su bucket baseNonce balance hs t
  refine ⟨hmain, ?_, ?_⟩
  · intro hnone
    cases hres : dpRecalculateReadiness su dp addr baseNonce balance with
    | none => rfl
    | some t =>
      obtain ⟨k, f, hf, -, -, hprev, -⟩ := (hmain t).mp hres
      cases k with
      | zero =>
        rw [Nat.add_zero, hnone] at hf
        cases hf
      | succ j =>
        obtain ⟨e2, he2, -⟩ := hprev 0 (by omega)
        rw [Nat.add_zero, hnone] at he2
        cases he2
  · intro hno
    cases hres : dpRecalculateReadiness su dp addr baseNonce balance with
    | none => rfl
    | some t => exact absurd ((hmain t).mp hres) (hno t)

/-- Witness for C1 at the source test's data: with nonces 5–7 packed,
8–9 unpacked and balance covering exactly four entries, the ready
transaction computed from base nonce 5 is the entry at nonce 8. -/
theorem claim_C1_witness :
    dpRecalculateReadiness 1 [(1, aliceBucket5)] 1 5 2040000
      = some (mkEntry 8 10 10000 false).transaction := by
  refine ((claim_C1 1 [(1, aliceBucket5)] 1 5 2040000 aliceBucket5 rfl
    (by decide)).1 _).mpr ⟨3, mkEntry 8 10 10000 false, by decide, rfl, rfl, ?_, by decide⟩
  intro i hi
  interval_cases i
  · exact ⟨mkEntry 5 10 10000 true, by decide, rfl⟩
  · exact ⟨mkEntry 6 10 10000 true, by decide, rfl⟩
  · exact ⟨mkEntry 7 10 10000 true, by decide, rfl⟩

/-! ### Claim C2 -/

theorem dpInsert_occupied (dp : DeferredPool) (tx old : TxWithReadyInfo)
    (force : Bool) (b : Bucket)
    (hb : alookup dp tx.transaction.sender = some b)
    (hold : bucketLookup b tx.transaction.nonce = some old) :
    dpInsert dp tx force =
      (if force || decide (old.transaction.gasPrice < tx.transaction.gasPrice)
       then (InsertResult.Updated old,
             aset dp tx.transaction.sender (bucketReplace tx b))
       else (.Failed (.replaceUnderpriced old.transaction.gasPrice),
             aset dp tx.transaction.sender b)) := by
  have hbd : (alookup dp tx.transaction.sender).getD [] = b := by
    rw [hb]
    rfl
  simp only [dpInsert, noncePoolInsert, hbd, hold]
  split <;> rfl

/-- C2: inserting at an already-occupied nonce replaces the previous entry
(returning `Updated` with it) iff `force` is set or the new gas price is
strictly greater; otherwise the insert fails naming the existing gas price
as the bound to exceed, leaving the pool unchanged. -/
theorem claim_C2 (dp : DeferredPool) (b : Bucket) (tx old : TxWithReadyInfo)
    (force : Bool)
    (hb : alookup dp tx.transaction.sender = some b)
    (hold : bucketLookup b tx.transaction.nonce = some old) :
    ((dpInsert dp tx force).1 = .Updated old ↔
      (force = true ∨ old.transaction.gasPrice < tx.transaction.gasPrice)) ∧
    (force = false → ¬ old.transaction.gasPrice < tx.transaction.gasPrice →
      (dpInsert dp tx force).1
          = .Failed (.replaceUnderpriced old.transaction.gasPrice) ∧
      (dpInsert dp tx force).2 = dp) := by
  have heq := dpInsert_occupied dp tx old force b hb hold
  by_cases hcond : force = true ∨ old.transaction.gasPrice < tx.transaction.gasPrice
  · have hb2 : (force || decide (old.transaction.gasPrice < tx.transaction.gasPrice)) = true := by
      rcases hcond with h | h
      · simp [h]
      · simp [h]
    rw [heq, if_pos hb2]
    refine ⟨⟨fun _ => hcond, fun _ => rfl⟩, ?_⟩
    intro hf hgp
    exact absurd hcond (by simp [hf, hgp])
  · have hb2 : (force || decide (old.transaction.gasPrice < tx.transaction.gasPrice)) = false := by
      push_neg at hcond
      simp [hcond.1, hcond.2]
    rw [heq, if_neg (by simp [hb2])]
    refine ⟨⟨(fun h => nomatch h), fun h => absurd h hcond⟩, ?_⟩
    intro _ _
    exact ⟨rfl, aset_lookup_self dp tx.transaction.sender b hb⟩

/-- Witness for C2: re-inserting a transaction at the same nonce with an
equal gas price and `force = false` fails, naming the resident gas price,
and leaves the pool unchanged. -/
theorem claim_C2_witness :
    (dpInsert [(1, [mkEntry 2 10 100 false])] (mkEntry 2 10 100 false) false).1
        = .Failed (.replaceUnderpriced 10) ∧
    (dpInsert [(1, [mkEntry 2 10 100 false])] (mkEntry 2 10 100 false) false).2
        = [(1, [mkEntry 2 10 100 false])] :=
  (claim_C2 [(1, [mkEntry 2 10 100 false])] [mkEntry 2 10 100 false]
    (mkEntry 2 10 100 false) (mkEntry 2 10 100 false) false rfl rfl).2 rfl
    (by decide)

/-! ### ReadyAccountPool (source lines 203–287) -/

/-- The weighted index over ready transactions: key is the sender, value the
transaction and its weight (`TreapMap<Address, Arc<SignedTransaction>,
WeightType>`; the treap implementation is outside the excerpt and is
modelled from the spec as a list with subtree weight sums). -/
abbrev Treap := List (Nat × (STx × Nat))

/-- `TreapMap::sum_weight`. -/
def treapSumWeight (t : Treap) : Nat :=
  (t.map (fun p => p.2.2)).sum

/-- Modelled from the spec: `TreapMap::get_by_weight` locates the entry whose
cumulative-weight interval contains `w` (spec §4.3). -/
def treapGetByWeight : Treap → Nat → Option STx
  | [], _ => none
  | (_, (tx, wt)) :: rest, w =>
    if w < wt then some tx else treapGetByWeight rest (w - wt)

/-- The largest `u128` value (`MAX_WEIGHT`). -/
def U128MAX : Nat := 2 ^ 128 - 1

/-- The `base_weight` computation of `ReadyAccountPool::insert`: integer
division by the scaling factor, zero stays zero, and values at or above
`u128::MAX` clamp to it. -/
def scaledWeightBase (txWeightScaling gasPrice : Nat) : Nat :=
  let scaled := gasPrice / txWeightScaling
  if scaled = 0 then 0
  else if U128MAX ≤ scaled then U128MAX
  else scaled

/-- The weight loop of `ReadyAccountPool::insert`: `weight = 1` multiplied
by the base once per unit of `tx_weight_exp`, over `u128` (wrapping, hence
the explicit `% 2 ^ 128`). -/
def weightLoop (base : Nat) : Nat → Nat
  | 0 => 1
  | k + 1 => weightLoop base k * base % 2 ^ 128

/-- The weight `ReadyAccountPool::insert` assigns to a gas price. -/
def readyPoolWeight (txWeightScaling txWeightExp gasPrice : Nat) : Nat :=
  weightLoop (scaledWeightBase txWeightScaling gasPrice) txWeightExp

/-- `ReadyAccountPool`: the treap plus its two weight-configuration fields. -/
structure ReadyAccountPool where
  treap : Treap
  txWeightScaling : Nat
  txWeightExp : Nat
  deriving DecidableEq, Repr

/-- `ReadyAccountPool::get`. -/
def rapGet (p : ReadyAccountPool) (addr : Nat) : Option STx :=
  (alookup p.treap addr).map (fun v => v.1)

/-- `ReadyAccountPool::remove`. -/
def rapRemove (p : ReadyAccountPool) (addr : Nat) :
    Option STx × ReadyAccountPool :=
  match alookup p.treap addr with
  | some v => (some v.1, { p with treap := aerase p.treap addr })
  | none => (none, p)

/-- `ReadyAccountPool::insert`: key the treap by the transaction's sender
with the gas-price-derived weight. -/
def rapInsertTx (p : ReadyAccountPool) (tx : STx) : ReadyAccountPool :=
  { p with
    treap := aset p.treap tx.sender
      (tx, readyPoolWeight p.txWeightScaling p.txWeightExp tx.gasPrice) }

/-- `ReadyAccountPool::update`: set or clear the sender's slot. -/
def rapUpdate (p : ReadyAccountPool) (addr : Nat) (otx : Option STx) :
    ReadyAccountPool :=
  match otx with
  | some tx => rapInsertTx p tx
  | none => (rapRemove p addr).2

/-- Panics `ReadyAccountPool::pop` can hit: `rand_value % 0` when the total
weight is zero, and the `expect` on `get_by_weight`. -/
inductive PanicKind
  | modByZero
  | getByWeightNone
  deriving DecidableEq, Repr

/-- `ReadyAccountPool::pop` (source lines 269–286), with the random draw an
explicit input and panics surfaced as `Except.error`. -/
def rapPop (p : ReadyAccountPool) (rand : Nat) :
    Except PanicKind (Option STx × ReadyAccountPool) :=
  if p.treap.length = 0 then .ok (none, p)
  else
    let sum := treapSumWeight p.treap
    if sum = 0 then .error .modByZero
    else
      match treapGetByWeight p.treap (rand % sum) with
      | none => .error .getByWeightNone
      | some tx => .ok (rapRemove p tx.sender)

/-- Key consistency of the ready index: each node's value is a transaction
of the key sender, and keys are unique. -/
def TreapWF (t : Treap) : Prop :=
  (∀ p ∈ t, p.2.1.sender = p.1) ∧ (t.map Prod.fst).Nodup

instance (t : Treap) : Decidable (TreapWF t) := by
  unfold TreapWF
  infer_instance

theorem treapGetByWeight_total (t : Treap) (w : Nat) (h : w < treapSumWeight t) :
    ∃ tx, treapGetByWeight t w = some tx := by
  induction t generalizing w with
  | nil => simp [treapSumWeight] at h
  | cons p rest ih =>
    obtain ⟨k, tx, wt⟩ := p
    by_cases h2 : w < wt
    · exact ⟨tx, by simp [treapGetByWeight, h2]⟩
    · have h3 : w - wt < treapSumWeight rest := by
        simp [treapSumWeight] at h
        simp [treapSumWeight]
        omega
      obtain ⟨tx2, ht2⟩ := ih _ h3
      exact ⟨tx2, by simp [treapGetByWeight, h2, ht2]⟩

theorem treapGetByWeight_pos (t : Treap) (w : Nat) (tx : STx)
    (h : treapGetByWeight t w = some tx) :
    ∃ k wt, (k, (tx, wt)) ∈ t ∧ 0 < wt := by
  induction t generalizing w with
  | nil => cases h
  | cons p rest ih =>
    obtain ⟨k, tx2, wt⟩ := p
    by_cases h2 : w < wt
    · simp [treapGetByWeight, h2] at h
      exact ⟨k, wt, by simp [h], by omega⟩
    · simp [treapGetByWeight, h2] at h
      obtain ⟨k2, wt2, hm, hp⟩ := ih _ h
      exact ⟨k2, wt2, by simp [hm], hp⟩

theorem alookup_of_mem_nodup {α : Type} (l : List (Nat × α)) (k : Nat) (v : α)
    (hm : (k, v) ∈ l) (hnd : (l.map Prod.fst).Nodup) : alookup l k = some v := by
  induction l with
  | nil => cases hm
  | cons p rest ih =>
    obtain ⟨pk, pv⟩ := p
    have hnd0 : (∀ (x : α), (pk, x) ∉ rest) ∧ (rest.map Prod.fst).Nodup := by
      simpa using hnd
    rcases List.mem_cons.mp hm with heq | hm2
    · cases heq
      simp [alookup]
    · have hk : pk ≠ k := by
        intro hc
        subst hc
        exact hnd0.1 v hm2
      simp only [alookup, hk, if_false]
      exact ih hm2 hnd0.2

theorem weightLoop_eq (base : Nat) :
    ∀ k, weightLoop base k = base ^ k % 2 ^ 128 := by
  intro k
  induction k with
  | zero =>
    show (1 : Nat) = base ^ 0 % 2 ^ 128
    rw [pow_zero]
    exact (Nat.mod_eq_of_lt (by norm_num)).symm
  | succ k ih =>
    show weightLoop base k * base % 2 ^ 128 = base ^ (k + 1) % 2 ^ 128
    rw [ih, Nat.mod_mul_mod, ← pow_succ]

/-! ### Claim C5 (corrected: `tx_weight_exp = 0` and 128-bit wrap-around) -/

/-- Amended C5: the assigned weight equals `base ^ tx_weight_exp` reduced
modulo `2 ^ 128`, with the base as claimed (zero when the scaled quotient is
zero, otherwise the quotient clamped to at most `2 ^ 128 - 1`); when
`tx_weight_exp` is positive, a transaction whose scaled gas price is zero
gets weight `0`, and an entry of weight `0` is never drawn by
`get_by_weight`. -/
theorem claim_C5 (txWeightScaling txWeightExp gasPrice : Nat) :
    (readyPoolWeight txWeightScaling txWeightExp gasPrice
        = scaledWeightBase txWeightScaling gasPrice ^ txWeightExp % 2 ^ 128) ∧
    (gasPrice / txWeightScaling = 0 → 0 < txWeightExp →
        readyPoolWeight txWeightScaling txWeightExp gasPrice = 0) ∧
    (∀ (t : Treap) (w : Nat) (tx : STx), treapGetByWeight t w = some tx →
        ∃ k wt, (k, (tx, wt)) ∈ t ∧ 0 < wt) := by
  refine ⟨weightLoop_eq _ _, ?_, ?_⟩
  · intro hq hexp
    rw [readyPoolWeight, weightLoop_eq]
    rw [show scaledWeightBase txWeightScaling gasPrice = 0 by
      simp [scaledWeightBase, hq]]
    rw [zero_pow (by omega)]
    rfl
  · intro t w tx h
    exact treapGetByWeight_pos t w tx h

/-- Witness for C5: with scaling 1 and exponent 2, gas price 7 gets weight
`49`, and gas price 0 gets weight `0`. -/
theorem claim_C5_witness :
    readyPoolWeight 1 2 7 = 7 ^ 2 % 2 ^ 128 ∧ readyPoolWeight 1 2 0 = 0 :=
  ⟨(claim_C5 1 2 7).1, (claim_C5 1 2 0).2.1 rfl (by decide)⟩

/-- A transaction with gas price zero, for the C5 counterexample. -/
def zeroGpTx : STx :=
  { sender := 1, nonce := 0, gasPrice := 0, gasLimit := 21000, value := 0,
    storageLimit := 0, hash := 3, rlpSize := 100 }

/-- Counterexample to C5 as stated: with `tx_weight_exp = 0` the weight loop
yields `1` (not `0`) for a transaction whose scaled gas price is zero, and
such a transaction can be drawn; moreover with `tx_weight_exp = 2` and a
base of `2 ^ 127` the stored weight is `0`, not the claimed un-truncated
power `(2 ^ 127) ^ 2`. -/
theorem claim_C5_counterexample :
    readyPoolWeight 1 0 0 = 1 ∧
    readyPoolWeight 1 0 0 ≠ 0 ∧
    treapGetByWeight [(1, (zeroGpTx, readyPoolWeight 1 0 0))] 0 = some zeroGpTx ∧
    readyPoolWeight 1 2 170141183460469231731687303715884105728 = 0 ∧
    scaledWeightBase 1 170141183460469231731687303715884105728 ^ 2 ≠ 0 := by
  refine ⟨rfl, by decide, rfl, ?_, ?_⟩
  · decide
  · decide

/-! ### Claim C10 -/

/-- C10: `pop` returns `None` exactly on the empty index; on a non-empty
index with positive total weight it draws `rand % total_weight`, removes the
matching entry and returns it; on a non-empty index of total weight zero the
modulo reduction is a division by zero (a panic), so totality needs one
resident entry of non-zero weight. -/
theorem claim_C10 (p : ReadyAccountPool) (rand : Nat) (hwf : TreapWF p.treap) :
    (p.treap = [] → rapPop p rand = .ok (none, p)) ∧
    (p.treap ≠ [] → 0 < treapSumWeight p.treap →
      ∃ tx, treapGetByWeight p.treap (rand % treapSumWeight p.treap) = some tx ∧
        rapPop p rand
          = .ok (some tx, { p with treap := aerase p.treap tx.sender })) ∧
    (p.treap ≠ [] → treapSumWeight p.treap = 0 →
      rapPop p rand = .error .modByZero) := by
  refine ⟨?_, ?_, ?_⟩
  · intro h
    simp [rapPop, h]
  · intro hne hsum
    have hlen : ¬ p.treap.length = 0 := by
      simpa [List.length_eq_zero] using hne
    obtain ⟨tx, htx⟩ := treapGetByWeight_total p.treap
      (rand % treapSumWeight p.treap) (Nat.mod_lt _ hsum)
    refine ⟨tx, htx, ?_⟩
    obtain ⟨k, wt, hmem, -⟩ := treapGetByWeight_pos _ _ _ htx
    have hkey : tx.sender = k := hwf.1 (k, (tx, wt)) hmem
    have hfind : alookup p.treap tx.sender = some (tx, wt) := by
      rw [hkey]
      exact alookup_of_mem_nodup _ _ _ hmem hwf.2
    have hsum2 : ¬ treapSumWeight p.treap = 0 := by omega
    simp only [rapPop, if_neg hlen, if_neg hsum2, htx, rapRemove, hfind]
  · intro hne hsum
    have hlen : ¬ p.treap.length = 0 := by
      simpa [List.length_eq_zero] using hne
    simp [rapPop, hlen, hsum]

/-- A sample ready transaction for the C10 witness. -/
def sampleTx : STx :=
  { sender := 1, nonce := 0, gasPrice := 50, gasLimit := 1, value := 0,
    storageLimit := 0, hash := 9, rlpSize := 10 }

/-- A one-entry ready index for the C10 witness. -/
def samplePool : ReadyAccountPool :=
  { treap := [(1, (sampleTx, 5))], txWeightScaling := 1, txWeightExp := 1 }

/-- Witness for C10 on a one-entry index with positive weight: `pop` draws
and removes the entry. -/
theorem claim_C10_witness :
    ∃ tx, treapGetByWeight samplePool.treap (3 % treapSumWeight samplePool.treap)
        = some tx ∧
      rapPop samplePool 3
        = .ok (some tx, { samplePool with treap := aerase samplePool.treap tx.sender }) :=
  (claim_C10 samplePool 3 (by decide)).2.1 (by decide) (by decide)

/-! ### GarbageCollector (modelled from the spec) and the pool state -/

/-- A node of the garbage-collection heap: sender, stale count, timestamp. -/
structure GcNode where
  sender : Nat
  count : Nat
  timestamp : Nat
  deriving DecidableEq, Repr

/-- Modelled from the spec: the GC heap ordering (spec §4.4): larger stale
count wins, ties broken by older timestamp. -/
def gcAhead (a b : GcNode) : Bool :=
  b.count < a.count || (a.count == b.count && a.timestamp ≤ b.timestamp)

/-- Keep the heap as a priority-sorted list; `pop` takes the head. -/
def gcPlace (n : GcNode) : List GcNode → List GcNode
  | [] => [n]
  | m :: rest => if gcAhead n m then n :: m :: rest else m :: gcPlace n rest

/-- Modelled from the spec: `GarbageCollector::insert` upserts the sender's
unique node. -/
def gcInsert (gc : List GcNode) (sender count timestamp : Nat) : List GcNode :=
  gcPlace ⟨sender, count, timestamp⟩ (gc.filter (fun m => m.sender != sender))

/-- `GarbageCollector::get_timestamp`. -/
def gcGetTimestamp (gc : List GcNode) (sender : Nat) : Option Nat :=
  (gc.find? (fun m => m.sender == sender)).map GcNode.timestamp

/-- `TransactionPoolInner` (source lines 304–326).  `total_received_count`
is carried but no code path of the excerpt updates it. -/
structure PoolState where
  capacity : Nat
  totalReceivedCount : Nat
  unpackedTransactionCount : Nat
  deferredPool : DeferredPool
  readyAccountPool : ReadyAccountPool
  readyNoncesAndBalances : List (Nat × (Nat × Nat))
  garbageCollector : List GcNode
  txs : List (Nat × STx)
  txSponsoredGasMap : List (Nat × (Nat × Nat))
  deriving DecidableEq, Repr

/-- `TransactionPoolInner::new`. -/
def newPool (capacity txWeightScaling txWeightExp : Nat) : PoolState :=
  { capacity := capacity, totalReceivedCount := 0,
    unpackedTransactionCount := 0, deferredPool := [],
    readyAccountPool :=
      { treap := [], txWeightScaling := txWeightScaling,
        txWeightExp := txWeightExp },
    readyNoncesAndBalances := [], garbageCollector := [], txs := [],
    txSponsoredGasMap := [] }

/-- `TransactionPoolInner::is_full` (`total_deferred() >= capacity`). -/
def isFull (st : PoolState) : Bool :=
  st.capacity ≤ st.txs.length

/-- Junk value standing for the result of an `unwrap` of `None` (a panic in
the source); theorems rely on it only under hypotheses ruling that out. -/
def panicEntry : TxWithReadyInfo :=
  { transaction :=
      { sender := 0, nonce := 0, gasPrice := 0, gasLimit := 0, value := 0,
        storageLimit := 0, hash := 0, rlpSize := 0 },
    packed := false, sponsoredGas := 0, sponsoredStorage := 0 }

/-- Gas price of a sender's lowest-nonce deferred transaction
(`get_lowest_nonce_tx(..).unwrap().gas_price`; junk `0` on the panic path). -/
def gpOfLowest (dp : DeferredPool) (s : Nat) : Nat :=
  match dpLowestTx dp s with
  | some e => e.transaction.gasPrice
  | none => 0

/-- The victim-selection drain loop of `collect_garbage` (source lines
404–442): pop up to `cnt` heap nodes, drop non-resident senders, break on a
node with executed (stale) transactions, skip the incoming sender, and track
the resident candidate whose lowest-nonce transaction is cheapest, seeded
with the incoming gas price.  Returns the victim, the nodes popped and kept
(`poped_nodes`, in pop order), and the rest of the heap. -/
def drainSelect (dp : DeferredPool) (newSender newGp : Nat) :
    List GcNode → Nat → Nat → Option GcNode → List GcNode →
    Option GcNode × List GcNode × List GcNode
  | [], _, _, victim, popped => (victim, popped.reverse, [])
  | node :: rest, cnt, minGp, victim, popped =>
    if cnt = 0 then (victim, popped.reverse, node :: rest)
    else if ¬ dpContains dp node.sender then
      drainSelect dp newSender newGp rest cnt minGp victim popped
    else if 0 < node.count then
      (some node, (node :: popped).reverse, rest)
    else if node.sender = newSender then
      drainSelect dp newSender newGp rest cnt minGp victim (node :: popped)
    else if gpOfLowest dp node.sender < minGp then
      drainSelect dp newSender newGp rest (cnt - 1) (gpOfLowest dp node.sender)
        (some node) (node :: popped)
    else
      drainSelect dp newSender newGp rest (cnt - 1) minGp victim (node :: popped)

/-- `GC_CHECK_COUNT` (source line 37). -/
def GCCheckCount : Nat := 5

/-- The eviction body of the `collect_garbage` loop (source lines 463–530):
remove the victim's lowest-nonce transaction, keep the ready index, the
unpacked counter, the nonce/balance cache, the GC heap and the hash maps in
step. -/
def gcEvict (st : PoolState) (victim : GcNode) (gc2 : List GcNode)
    (now : Nat) : PoolState :=
  let addr := victim.sender
  let toRemove := (dpLowestTx st.deferredPool addr).getD panicEntry
  let rap2 :=
    match rapGet st.readyAccountPool addr with
    | some readyTx =>
      if readyTx.hash = toRemove.transaction.hash
      then (rapRemove st.readyAccountPool addr).2
      else st.readyAccountPool
    | none => st.readyAccountPool
  let unpacked2 :=
    if dpCheckPacked st.deferredPool addr toRemove.transaction.nonce
    then st.unpackedTransactionCount
    else st.unpackedTransactionCount - 1
  let dpr := dpRemoveLowest st.deferredPool addr
  let removedHash := (dpr.1.getD panicEntry).transaction.hash
  let readyNB2 :=
    if dpContains dpr.2 addr then st.readyNoncesAndBalances
    else aerase st.readyNoncesAndBalances addr
  let gc3 :=
    if dpContains dpr.2 addr then
      if 0 < victim.count then gcInsert gc2 addr (victim.count - 1) now
      else gcInsert gc2 addr 0 now
    else gc2
  { st with
    deferredPool := dpr.2
    readyAccountPool := rap2
    unpackedTransactionCount := unpacked2
    garbageCollector := gc3
    readyNoncesAndBalances := readyNB2
    txs := aerase st.txs removedHash
    txSponsoredGasMap := aerase st.txSponsoredGasMap removedHash }

/-- One pass plus recursion of the `collect_garbage` while-loop (source
lines 400–534), on explicit fuel (each eviction removes one transaction, so
any fuel above `txs.length` is enough). -/
def collectGarbageLoop (newTx : STx) (now : Nat) : Nat → PoolState → PoolState
  | 0, st => st
  | fuel + 1, st =>
    if isFull st ∧ st.garbageCollector ≠ [] then
      let r := drainSelect st.deferredPool newTx.sender newTx.gasPrice
        st.garbageCollector GCCheckCount newTx.gasPrice none []
      let gc2 := r.2.1.foldl (fun acc node =>
        match r.1 with
        | some v =>
          if node.sender = v.sender then acc
          else gcInsert acc node.sender node.count node.timestamp
        | none => gcInsert acc node.sender node.count node.timestamp) r.2.2
      match r.1 with
      | none => { st with garbageCollector := gc2 }
      | some victim => collectGarbageLoop newTx now fuel (gcEvict st victim gc2 now)
    else st

/-- `TransactionPoolInner::collect_garbage`. -/
def collectGarbage (st : PoolState) (newTx : STx) (now : Nat) : PoolState :=
  collectGarbageLoop newTx now (st.txs.length + 1) st

/-! ### Claim C3 -/

theorem drainSelect_spec (dp : DeferredPool) (ns ngp : Nat) :
    ∀ (nodes : List GcNode) (cnt minGp : Nat) (victim : Option GcNode)
      (popped : List GcNode),
    (∀ node ∈ nodes, dpContains dp node.sender = true) →
    (∀ node ∈ nodes, node.count = 0) →
    minGp ≤ ngp →
    (victim = none → minGp = ngp) →
    (∀ v, victim = some v → v.sender ≠ ns ∧ gpOfLowest dp v.sender = minGp ∧
        minGp < ngp ∧ v ∈ popped) →
    (∀ c ∈ popped, c.sender ≠ ns → minGp ≤ gpOfLowest dp c.sender) →
    (∀ v, (drainSelect dp ns ngp nodes cnt minGp victim popped).1 = some v →
        v.sender ≠ ns ∧ gpOfLowest dp v.sender < ngp ∧
        v ∈ (drainSelect dp ns ngp nodes cnt minGp victim popped).2.1 ∧
        ∀ c ∈ (drainSelect dp ns ngp nodes cnt minGp victim popped).2.1,
          c.sender ≠ ns →
            gpOfLowest dp v.sender ≤ gpOfLowest dp c.sender) ∧
    ((drainSelect dp ns ngp nodes cnt minGp victim popped).1 = none →
        ∀ c ∈ (drainSelect dp ns ngp nodes cnt minGp victim popped).2.1,
          c.sender ≠ ns → ngp ≤ gpOfLowest dp c.sender) := by
  intro nodes
  induction nodes with
  | nil =>
    intro cnt minGp victim popped _ _ hle hnone hv hp
    constructor
    · intro v hvv
      obtain ⟨h1, h2, h3, h4⟩ := hv v hvv
      refine ⟨h1, by omega, List.mem_reverse.mpr h4, ?_⟩
      intro c hc hcs
      have := hp c (List.mem_reverse.mp hc) hcs
      omega
    · intro hvn c hc hcs
      have h0 := hnone hvn
      have := hp c (List.mem_reverse.mp hc) hcs
      omega
  | cons node rest ih =>
    intro cnt minGp victim popped hres hcnt hle hnone hv hp
    have hresn : dpContains dp node.sender = true := hres node (by simp)
    have hcntn : node.count = 0 := hcnt node (by simp)
    have hres2 : ∀ m ∈ rest, dpContains dp m.sender = true :=
      fun m hm => hres m (by simp [hm])
    have hcnt2 : ∀ m ∈ rest, m.count = 0 := fun m hm => hcnt m (by simp [hm])
    by_cases hc0 : cnt = 0
    · rw [drainSelect, if_pos hc0]
      constructor
      · intro v hvv
        obtain ⟨h1, h2, h3, h4⟩ := hv v hvv
        refine ⟨h1, by omega, List.mem_reverse.mpr h4, ?_⟩
        intro c hc hcs
        have := hp c (List.mem_reverse.mp hc) hcs
        omega
      · intro hvn c hc hcs
        have h0 := hnone hvn
        have := hp c (List.mem_reverse.mp hc) hcs
        omega
    · rw [drainSelect, if_neg hc0, if_neg (by simp [hresn]),
        if_neg (by omega : ¬ 0 < node.count)]
      by_cases hsame : node.sender = ns
      · rw [if_pos hsame]
        refine ih cnt minGp victim (node :: popped) hres2 hcnt2 hle hnone ?_ ?_
        · intro v hvv
          obtain ⟨h1, h2, h3, h4⟩ := hv v hvv
          exact ⟨h1, h2, h3, by simp [h4]⟩
        · intro c hc hcs
          rcases List.mem_cons.mp hc with rfl | hc2
          · exact absurd hsame hcs
          · exact hp c hc2 hcs
      · rw [if_neg hsame]
        by_cases hgp : gpOfLowest dp node.sender < minGp
        · rw [if_pos hgp]
          refine ih (cnt - 1) _ (some node) (node :: popped) hres2 hcnt2
            (by omega) (fun h => nomatch h) ?_ ?_
          · intro v hvv
            cases hvv
            exact ⟨hsame, rfl, by omega, by simp⟩
          · intro c hc hcs
            rcases List.mem_cons.mp hc with rfl | hc2
            · omega
            · have := hp c hc2 hcs
              omega
        · rw [if_neg hgp]
          refine ih (cnt - 1) minGp victim (node :: popped) hres2 hcnt2 hle
            hnone ?_ ?_
          · intro v hvv
            obtain ⟨h1, h2, h3, h4⟩ := hv v hvv
            exact ⟨h1, h2, h3, by simp [h4]⟩
          · intro c hc hcs
            rcases List.mem_cons.mp hc with rfl | hc2
            · omega
            · exact hp c hc2 hcs

/-- C3: when every drained GC node has stale count `0`, the incoming
sender's node is never the victim; a chosen victim's lowest-nonce gas price
is strictly below the incoming gas price and minimal among the drained
candidates; and when no drained candidate is strictly cheaper, no victim is
chosen, `collect_garbage` evicts nothing and the pool stays full. -/
theorem claim_C3 (st : PoolState) (newTx : STx) (now : Nat)
    (victimO : Option GcNode) (popped remaining : List GcNode)
    (hres : ∀ node ∈ st.garbageCollector,
      dpContains st.deferredPool node.sender = true)
    (hcnt : ∀ node ∈ st.garbageCollector, node.count = 0)
    (hdrain : drainSelect st.deferredPool newTx.sender newTx.gasPrice
        st.garbageCollector GCCheckCount newTx.gasPrice none []
      = (victimO, popped, remaining)) :
    (∀ v, victimO = some v → v.sender ≠ newTx.sender ∧
        gpOfLowest st.deferredPool v.sender < newTx.gasPrice ∧ v ∈ popped ∧
        ∀ c ∈ popped, c.sender ≠ newTx.sender →
          gpOfLowest st.deferredPool v.sender
            ≤ gpOfLowest st.deferredPool c.sender) ∧
    (victimO = none →
      (∀ c ∈ popped, c.sender ≠ newTx.sender →
          newTx.gasPrice ≤ gpOfLowest st.deferredPool c.sender) ∧
      (collectGarbage st newTx now).deferredPool = st.deferredPool ∧
      (collectGarbage st newTx now).txs = st.txs ∧
      (collectGarbage st newTx now).readyAccountPool = st.readyAccountPool ∧
      (collectGarbage st newTx now).unpackedTransactionCount
          = st.unpackedTransactionCount ∧
      (isFull st = true → isFull (collectGarbage st newTx now) = true)) := by
  have hspec := drainSelect_spec st.deferredPool newTx.sender newTx.gasPrice
    st.garbageCollector GCCheckCount newTx.gasPrice none [] hres hcnt
    (le_refl _) (fun _ => rfl) (fun v h => nomatch h)
    (fun c hc => absurd hc (List.not_mem_nil c))
  rw [hdrain] at hspec
  constructor
  · intro v hvv
    exact hspec.1 v hvv
  · intro hvn
    subst hvn
    have hform : ∃ gc2, collectGarbage st newTx now
        = { st with garbageCollector := gc2 } := by
      unfold collectGarbage
      rw [collectGarbageLoop]
      by_cases hcond : (isFull st ∧ st.garbageCollector ≠ [])
      · rw [if_pos hcond]
        simp only [hdrain]
        exact ⟨_, rfl⟩
      · rw [if_neg hcond]
        exact ⟨st.garbageCollector, rfl⟩
    obtain ⟨gc2, hgc⟩ := hform
    rw [hgc]
    exact ⟨hspec.2 rfl, rfl, rfl, rfl, rfl, fun h => h⟩

/-- Concrete deferred pool for the C3 witness: three resident senders whose
single transactions carry gas prices 5, 6 and 7. -/
def dpC3 : DeferredPool :=
  [(2, [mkEntry 0 5 0 false]), (3, [mkEntry 0 6 0 false]),
   (4, [mkEntry 0 7 0 false])]

/-- The incoming transaction for the C3 witness: a fourth sender at gas
price 8. -/
def txC3 : STx :=
  { sender := 5, nonce := 0, gasPrice := 8, gasLimit := 21000, value := 0,
    storageLimit := 0, hash := 77, rlpSize := 100 }

/-- A pool state for the C3 witness whose GC heap holds the three resident
senders, none with stale transactions. -/
def stC3 : PoolState :=
  { capacity := 3, totalReceivedCount := 0, unpackedTransactionCount := 3,
    deferredPool := dpC3,
    readyAccountPool := { treap := [], txWeightScaling := 1, txWeightExp := 1 },
    readyNoncesAndBalances := [],
    garbageCollector := [⟨3, 0, 0⟩, ⟨2, 0, 0⟩, ⟨4, 0, 0⟩],
    txs := [(105, (mkEntry 0 5 0 false).transaction),
            (106, (mkEntry 0 6 0 false).transaction),
            (107, (mkEntry 0 7 0 false).transaction)],
    txSponsoredGasMap := [] }

/-- Witness for C3: among the all-ready candidates, the victim is the
sender whose lowest-nonce transaction is cheapest (gas price 5 < 8). -/
theorem claim_C3_witness :
    (⟨2, 0, 0⟩ : GcNode).sender ≠ txC3.sender ∧
    gpOfLowest stC3.deferredPool (2 : Nat) < txC3.gasPrice ∧
    (⟨2, 0, 0⟩ : GcNode) ∈ [(⟨3, 0, 0⟩ : GcNode), ⟨2, 0, 0⟩, ⟨4, 0, 0⟩] ∧
    ∀ c ∈ [(⟨3, 0, 0⟩ : GcNode), ⟨2, 0, 0⟩, ⟨4, 0, 0⟩],
      c.sender ≠ txC3.sender →
        gpOfLowest stC3.deferredPool (2 : Nat)
          ≤ gpOfLowest stC3.deferredPool c.sender :=
  (claim_C3 stC3 txC3 0 (some ⟨2, 0, 0⟩)
    [⟨3, 0, 0⟩, ⟨2, 0, 0⟩, ⟨4, 0, 0⟩] [] (by decide) (by decide)
    (by decide)).1 ⟨2, 0, 0⟩ rfl

/-! ### Claim C9: `get_lowest_nonce` (source lines 752–763) -/

/-- `TransactionPoolInner::get_lowest_nonce`: start from `0`, take the
cached nonce when present, and lower to the deferred lowest nonce only when
that is strictly smaller. -/
def getLowestNonce (st : PoolState) (addr : Nat) : Nat :=
  let ret :=
    match alookup st.readyNoncesAndBalances addr with
    | some nb => nb.1
    | none => 0
  match dpLowestNonce st.deferredPool addr with
  | some n => if n < ret then n else ret
  | none => ret

/-- Amended C9: `get_lowest_nonce` returns the minimum of the cached nonce
and the lowest deferred nonce only when the address is in the cache; the
initial value is `0`, not the deferred lowest nonce, so an address absent
from the cache yields `0` regardless of its deferred transactions. -/
theorem claim_C9 (st : PoolState) (addr : Nat) :
    (∀ nc b nd, alookup st.readyNoncesAndBalances addr = some (nc, b) →
        dpLowestNonce st.deferredPool addr = some nd →
        getLowestNonce st addr = min nc nd) ∧
    (∀ nc b, alookup st.readyNoncesAndBalances addr = some (nc, b) →
        dpLowestNonce st.deferredPool addr = none →
        getLowestNonce st addr = nc) ∧
    (alookup st.readyNoncesAndBalances addr = none →
        getLowestNonce st addr = 0) := by
  refine ⟨?_, ?_, ?_⟩
  · intro nc b nd h1 h2
    simp only [getLowestNonce, h1, h2]
    split
    · omega
    · omega
  · intro nc b h1 h2
    simp only [getLowestNonce, h1, h2]
  · intro h1
    simp only [getLowestNonce, h1]
    cases h2 : dpLowestNonce st.deferredPool addr with
    | none => rfl
    | some n => simp

/-- A state for the C9 witness: address 1 cached at nonce 7, lowest
deferred nonce 3. -/
def stC9b : PoolState :=
  { newPool 10 1 1 with
    deferredPool := [(1, [mkEntry 3 10 0 false])],
    readyNoncesAndBalances := [(1, (7, 1000))] }

/-- Witness for the amended C9: with cached nonce 7 and deferred lowest 3,
the function returns `min 7 3 = 3`. -/
theorem claim_C9_witness : getLowestNonce stC9b 1 = min 7 3 :=
  (claim_C9 stC9b 1).1 7 1000 3 rfl rfl

/-- A state for the C9 counterexample: address 1 absent from the cache with
lowest deferred nonce 5. -/
def stC9 : PoolState :=
  { newPool 10 1 1 with deferredPool := [(1, [mkEntry 5 10 0 false])] }

/-- Counterexample to C9 as stated: for an address absent from the
ReadyInfo cache whose lowest deferred nonce is 5 (positive), the function
returns 0, not 5. -/
theorem claim_C9_counterexample :
    alookup stC9.readyNoncesAndBalances 1 = none ∧
    dpLowestNonce stC9.deferredPool 1 = some 5 ∧
    getLowestNonce stC9 1 = 0 ∧ getLowestNonce stC9 1 ≠ 5 := by
  refine ⟨rfl, rfl, rfl, by decide⟩

/-! ### Insertion (source lines 546–636 and 965–1084) -/

/-- `FURTHEST_FUTURE_TRANSACTION_NONCE_OFFSET` (source line 34). -/
def FurthestFutureNonceOffset : Nat := 2000

/-- `TransactionPoolInner::update_nonce_and_balance` (source lines
716–730): refresh GC bookkeeping and the nonce/balance cache, but only for
senders resident in the deferred pool. -/
def updateNonceAndBalance (st : PoolState) (addr nonce balance now : Nat) :
    PoolState :=
  if dpContains st.deferredPool addr then
    { st with
      garbageCollector := gcInsert st.garbageCollector addr
        (dpCountLess st.deferredPool addr nonce)
        ((gcGetTimestamp st.garbageCollector addr).getD now),
      readyNoncesAndBalances :=
        aset st.readyNoncesAndBalances addr (nonce, balance) }
  else st

/-- The deferred-pool insert and bookkeeping half of
`insert_transaction_without_readiness_check` (source lines 564–635). -/
def insertCore (st1 : PoolState) (tx : STx) (packed force : Bool)
    (stateNB : Option (Nat × Nat)) (sg ss : Nat) (now : Nat) :
    InsertResult × PoolState :=
  let entry : TxWithReadyInfo :=
    { transaction := tx, packed := packed, sponsoredGas := sg,
      sponsoredStorage := ss }
  let r := dpInsert st1.deferredPool entry force
  let st2 := { st1 with deferredPool := r.2 }
  match r.1 with
  | .NewAdded =>
    let nb := stateNB.getD (0, 0)
    let st3 := updateNonceAndBalance st2 tx.sender nb.1 nb.2 now
    (.NewAdded,
      { st3 with
        garbageCollector := gcInsert st3.garbageCollector tx.sender
          (dpCountLess st3.deferredPool tx.sender nb.1)
          ((gcGetTimestamp st3.garbageCollector tx.sender).getD now),
        txs := aset st3.txs tx.hash tx,
        txSponsoredGasMap := aset st3.txSponsoredGasMap tx.hash (sg, ss),
        unpackedTransactionCount :=
          if packed then st3.unpackedTransactionCount
          else st3.unpackedTransactionCount + 1 })
  | .Failed reason => (.Failed reason, st2)
  | .Updated replaced =>
    (.Updated replaced,
      { st2 with
        unpackedTransactionCount :=
          (if replaced.packed then st2.unpackedTransactionCount
           else st2.unpackedTransactionCount - 1) +
          (if packed then 0 else 1),
        txs := aset (aerase st2.txs replaced.transaction.hash) tx.hash tx,
        txSponsoredGasMap :=
          aset (aerase st2.txSponsoredGasMap replaced.transaction.hash)
            tx.hash (sg, ss) })

/-- `TransactionPoolInner::insert_transaction_without_readiness_check`
(source lines 546–636): when the `(sender, nonce)` slot is fresh, first
garbage-collect and fail with `PoolFull` if the pool is still full. -/
def insertWithout (st0 : PoolState) (tx : STx) (packed force : Bool)
    (stateNB : Option (Nat × Nat)) (sg ss : Nat) (now : Nat) :
    InsertResult × PoolState :=
  if dpNonceExists st0.deferredPool tx.sender tx.nonce then
    insertCore st0 tx packed force stateNB sg ss now
  else
    let st1 := collectGarbage st0 tx now
    if isFull st1 then (.Failed .poolFull, st1)
    else insertCore st1 tx packed force stateNB sg ss now

/-- `TransactionPoolInner::recalculate_readiness_with_local_info` (source
lines 771–779). -/
def recalcLocal (su : Nat) (st : PoolState) (addr : Nat) : PoolState :=
  let nb := (alookup st.readyNoncesAndBalances addr).getD (0, 0)
  { st with
    readyAccountPool := rapUpdate st.readyAccountPool addr
      (dpRecalculateReadiness su st.deferredPool addr nb.1 nb.2) }

/-- `TransactionPoolInner::recalculate_readiness_with_fixed_info` (source
lines 781–789). -/
def recalcFixed (su : Nat) (st : PoolState) (addr nonce balance now : Nat) :
    PoolState :=
  let st1 := updateNonceAndBalance st addr nonce balance now
  { st1 with
    readyAccountPool := rapUpdate st1.readyAccountPool addr
      (dpRecalculateReadiness su st1.deferredPool addr nonce balance) }

/-- `TransactionPoolInner::recalculate_readiness_with_state` (source lines
791–806), with the storage read an explicit fallible input
(`get_and_update_nonce_and_balance_from_storage`, lines 732–750). -/
def recalcWithState (su : Nat) (st : PoolState) (addr : Nat)
    (oracleNB : Except Unit (Nat × Nat)) (now : Nat) :
    Except Unit PoolState :=
  match oracleNB with
  | .error e => .error e
  | .ok nb =>
    let st1 :=
      if dpContains st.deferredPool addr then
        { st with
          garbageCollector := gcInsert st.garbageCollector addr
            (dpCountLess st.deferredPool addr nb.1)
            ((gcGetTimestamp st.garbageCollector addr).getD now),
          readyNoncesAndBalances := aset st.readyNoncesAndBalances addr nb }
      else st
    .ok { st1 with
      readyAccountPool := rapUpdate st1.readyAccountPool addr
        (dpRecalculateReadiness su st1.deferredPool addr nb.1 nb.2) }

/-- Errors of `insert_transaction_with_readiness_check` (the source carries
formatted strings; the model tags the variants). -/
inductive InsertError
  | oracleFailure
  | tooDistantFuture
  | staleNonce
  | deferredFailed (reason : FailReason)
  deriving DecidableEq, Repr

/-- `TransactionPoolInner::insert_transaction_with_readiness_check` (source
lines 965–1084).  The sponsorship resolution (lines 971–1025, two oracle
reads deciding `(sponsored_gas, sponsored_storage)`) and the two
`get_nonce_and_balance` storage reads (line 1027 and the one inside
`recalculate_readiness_with_state`, line 1075) are explicit fallible
inputs.  The mutable-reference result is modelled as the outcome paired
with the final state. -/
def insertWithReadinessCheck (su : Nat) (st : PoolState) (tx : STx)
    (packed force : Bool) (sponsorRes : Except Unit (Nat × Nat))
    (oracleNB1 oracleNB2 : Except Unit (Nat × Nat)) (now : Nat) :
    Option InsertError × PoolState :=
  match sponsorRes with
  | .error _ => (some .oracleFailure, st)
  | .ok (sg, ss) =>
    match oracleNB1 with
    | .error _ => (some .oracleFailure, st)
    | .ok (stateNonce, stateBalance) =>
      if stateNonce + FurthestFutureNonceOffset ≤ tx.nonce then
        (some .tooDistantFuture, st)
      else if packed = false ∧ tx.nonce < stateNonce then
        (some .staleNonce, st)
      else
        let r := insertWithout st tx packed force
          (some (stateNonce, stateBalance)) sg ss now
        match r.1 with
        | .Failed reason => (some (.deferredFailed reason), r.2)
        | _ =>
          match recalcWithState su r.2 tx.sender oracleNB2 now with
          | .error _ => (some .oracleFailure, r.2)
          | .ok st2 => (none, st2)

/-! ### Claim C6 -/

/-- C6: the too-distant-future rejection fires exactly when
`tx.nonce ≥ state_nonce + 2000`, and a rejected transaction leaves the pool
untouched (the check precedes any mutation). -/
theorem claim_C6 (su : Nat) (st : PoolState) (tx : STx) (packed force : Bool)
    (sg ss stateNonce stateBalance : Nat) (nb2 : Except Unit (Nat × Nat))
    (now : Nat) :
    FurthestFutureNonceOffset = 2000 ∧
    ((insertWithReadinessCheck su st tx packed force (.ok (sg, ss))
        (.ok (stateNonce, stateBalance)) nb2 now).1 = some .tooDistantFuture
      ↔ stateNonce + 2000 ≤ tx.nonce) ∧
    (stateNonce + 2000 ≤ tx.nonce →
      insertWithReadinessCheck su st tx packed force (.ok (sg, ss))
        (.ok (stateNonce, stateBalance)) nb2 now
        = (some .tooDistantFuture, st)) := by
  have hoff : FurthestFutureNonceOffset = 2000 := rfl
  by_cases h : stateNonce + FurthestFutureNonceOffset ≤ tx.nonce
  · refine ⟨rfl, ⟨fun _ => by omega, fun _ => ?_⟩, fun _ => ?_⟩
    · simp only [insertWithReadinessCheck, if_pos h]
    · simp only [insertWithReadinessCheck, if_pos h]
  · refine ⟨rfl, ⟨fun hc => ?_, fun h2 => absurd (by omega : stateNonce
      + FurthestFutureNonceOffset ≤ tx.nonce) h⟩, fun h2 => absurd (by omega :
      stateNonce + FurthestFutureNonceOffset ≤ tx.nonce) h⟩
    exfalso
    simp only [insertWithReadinessCheck, if_neg h] at hc
    by_cases h2 : (packed = false ∧ tx.nonce < stateNonce)
    · rw [if_pos h2] at hc
      exact nomatch hc
    · rw [if_neg h2] at hc
      rcases hr : (insertWithout st tx packed force
          (some (stateNonce, stateBalance)) sg ss now).1 with _ | replaced | reason
      · rw [hr] at hc
        rcases hrec : recalcWithState su (insertWithout st tx packed force
            (some (stateNonce, stateBalance)) sg ss now).2 tx.sender nb2 now
          with e | st2
        · rw [hrec] at hc
          exact nomatch hc
        · rw [hrec] at hc
          exact nomatch hc
      · rw [hr] at hc
        rcases hrec : recalcWithState su (insertWithout st tx packed force
            (some (stateNonce, stateBalance)) sg ss now).2 tx.sender nb2 now
          with e | st2
        · rw [hrec] at hc
          exact nomatch hc
        · rw [hrec] at hc
          exact nomatch hc
      · rw [hr] at hc
        exact nomatch hc

/-- A transaction at nonce 2010 from sender 1, for the C6 witness. -/
def tx2010 : STx :=
  { sender := 1, nonce := 2010, gasPrice := 10, gasLimit := 21000,
    value := 0, storageLimit := 0, hash := 11, rlpSize := 100 }

/-- The same transaction at nonce 2009. -/
def tx2009 : STx :=
  { sender := 1, nonce := 2009, gasPrice := 10, gasLimit := 21000,
    value := 0, storageLimit := 0, hash := 12, rlpSize := 100 }

/-- Witness for C6, the spec's S6 scenario: with state nonce 10, nonce 2010
is rejected as too distant (state untouched) and nonce 2009 passes this
check. -/
theorem claim_C6_witness :
    insertWithReadinessCheck 1 (newPool 10 1 1) tx2010 false false
        (.ok (0, 0)) (.ok (10, 1000000000)) (.ok (10, 1000000000)) 0
      = (some .tooDistantFuture, newPool 10 1 1) ∧
    (insertWithReadinessCheck 1 (newPool 10 1 1) tx2009 false false
        (.ok (0, 0)) (.ok (10, 1000000000)) (.ok (10, 1000000000)) 0).1
      ≠ some .tooDistantFuture :=
  ⟨(claim_C6 1 (newPool 10 1 1) tx2010 false false 0 0 10 1000000000
      (.ok (10, 1000000000)) 0).2.2 (by decide),
   fun hc => absurd ((claim_C6 1 (newPool 10 1 1) tx2009 false false 0 0 10
      1000000000 (.ok (10, 1000000000)) 0).2.1.mp hc) (by decide)⟩

/-! ### Association-list well-formedness lemmas (for C7 and C8) -/

/-- Unique keys in an association list. -/
def KeysNodup {α : Type} (l : List (Nat × α)) : Prop :=
  (l.map Prod.fst).Nodup

instance {α : Type} (l : List (Nat × α)) : Decidable (KeysNodup l) := by
  unfold KeysNodup
  infer_instance

theorem keysNodup_cons {α : Type} (pk : Nat) (pv : α) (rest : List (Nat × α))
    (h : KeysNodup ((pk, pv) :: rest)) :
    (∀ v, (pk, v) ∉ rest) ∧ KeysNodup rest := by
  simpa [KeysNodup] using h

theorem alookup_eq_none_of_forall {α : Type} (l : List (Nat × α)) (k : Nat)
    (h : ∀ v, (k, v) ∉ l) : alookup l k = none := by
  induction l with
  | nil => rfl
  | cons p rest ih =>
    obtain ⟨pk, pv⟩ := p
    have h2 : pk ≠ k := by
      intro hc
      exact h pv (by simp [hc])
    simp only [alookup, h2, if_false]
    exact ih (fun v hv => h v (by simp [hv]))

theorem mem_keys_aset {α : Type} (l : List (Nat × α)) (k : Nat) (v : α)
    (j : Nat) (h : j ∈ (aset l k v).map Prod.fst) :
    j = k ∨ j ∈ l.map Prod.fst := by
  induction l with
  | nil =>
    simp [aset] at h
    exact Or.inl h
  | cons p rest ih =>
    obtain ⟨pk, pv⟩ := p
    by_cases h2 : pk = k
    · simp only [aset, h2, if_true, List.map_cons, List.mem_cons] at h
      rcases h with h | h
      · exact Or.inr (by simp [h, h2])
      · exact Or.inr (by simp [h])
    · simp only [aset, h2, if_false, List.map_cons, List.mem_cons] at h
      rcases h with h | h
      · exact Or.inr (by simp [h])
      · rcases ih h with h | h
        · exact Or.inl h
        · exact Or.inr (by simp [h])

theorem keysNodup_aset {α : Type} (l : List (Nat × α)) (k : Nat) (v : α)
    (h : KeysNodup l) : KeysNodup (aset l k v) := by
  induction l with
  | nil => simp [aset, KeysNodup]
  | cons p rest ih =>
    obtain ⟨pk, pv⟩ := p
    have h0 := keysNodup_cons pk pv rest h
    by_cases h2 : pk = k
    · subst h2
      unfold KeysNodup
      have hset : aset ((pk, pv) :: rest) pk v = (pk, v) :: rest := by
        simp [aset]
      rw [hset]
      simp only [List.map_cons, List.nodup_cons]
      refine ⟨?_, h0.2⟩
      intro hc
      obtain ⟨q, hq, hq2⟩ := List.mem_map.mp hc
      obtain ⟨qk, qv⟩ := q
      cases hq2
      exact h0.1 qv hq
    · unfold KeysNodup
      simp only [aset, h2, if_false, List.map_cons, List.nodup_cons]
      refine ⟨?_, ih h0.2⟩
      intro hc
      rcases mem_keys_aset rest k v pk hc with h3 | h3
      · exact h2 h3
      · obtain ⟨q, hq, hq2⟩ := List.mem_map.mp h3
        obtain ⟨qk, qv⟩ := q
        cases hq2
        exact h0.1 qv hq

theorem aerase_keys_sublist {α : Type} (l : List (Nat × α)) (k : Nat) :
    ((aerase l k).map Prod.fst).Sublist (l.map Prod.fst) := by
  induction l with
  | nil => simp [aerase]
  | cons p rest ih =>
    obtain ⟨pk, pv⟩ := p
    by_cases h2 : pk = k
    · simp only [aerase, h2, if_true, List.map_cons]
      exact List.sublist_cons_self _ _
    · simp only [aerase, h2, if_false, List.map_cons]
      exact ih.cons₂ pk

theorem keysNodup_aerase {α : Type} (l : List (Nat × α)) (k : Nat)
    (h : KeysNodup l) : KeysNodup (aerase l k) :=
  h.sublist (aerase_keys_sublist l k)

theorem alookup_aerase_self {α : Type} (l : List (Nat × α)) (k : Nat)
    (h : KeysNodup l) : alookup (aerase l k) k = none := by
  induction l with
  | nil => rfl
  | cons p rest ih =>
    obtain ⟨pk, pv⟩ := p
    have h0 := keysNodup_cons pk pv rest h
    by_cases h2 : pk = k
    · simp only [aerase, h2, if_true]
      exact alookup_eq_none_of_forall rest k (fun v hv => h0.1 v (h2 ▸ hv))
    · simp only [aerase, h2, if_false, alookup, if_neg h2]
      exact ih h0.2

theorem alookup_aerase_ne {α : Type} (l : List (Nat × α)) (k k2 : Nat)
    (h : k ≠ k2) : alookup (aerase l k) k2 = alookup l k2 := by
  induction l with
  | nil => rfl
  | cons p rest ih =>
    obtain ⟨pk, pv⟩ := p
    by_cases h2 : pk = k
    · subst h2
      simp [aerase, alookup, h]
    · simp only [aerase, h2, if_false, alookup]
      by_cases h3 : pk = k2
      · simp [h3]
      · simp [h3, ih]

theorem aerase_length_of_mem {α : Type} (l : List (Nat × α)) (k : Nat)
    (h : k ∈ l.map Prod.fst) : (aerase l k).length + 1 = l.length := by
  induction l with
  | nil => simp at h
  | cons p rest ih =>
    obtain ⟨pk, pv⟩ := p
    by_cases h2 : pk = k
    · simp [aerase, h2]
    · have h3 : k ∈ rest.map Prod.fst := by
        rw [List.map_cons] at h
        rcases List.mem_cons.mp h with h | h
        · exact absurd h.symm h2
        · exact h
      simp only [aerase, h2, if_false, List.length_cons, ih h3]

/-! ### Garbage collection does not create nonces, and keeps a still-full
pool untouched (for C7) -/

theorem bucketLookup_isSome_cons (e : TxWithReadyInfo) (rest : Bucket)
    (n : Nat) (h : (bucketLookup rest n).isSome = true) :
    (bucketLookup (e :: rest) n).isSome = true := by
  by_cases h2 : e.transaction.nonce = n
  · simp [bucketLookup_cons_self e rest n h2]
  · rwa [bucketLookup_cons_ne e rest n h2]

theorem keysNodup_removeLowest (dp : DeferredPool) (addr : Nat)
    (h : KeysNodup dp) : KeysNodup (dpRemoveLowest dp addr).2 := by
  unfold dpRemoveLowest
  cases hb : alookup dp addr with
  | none => exact h
  | some bucket =>
    match bucket with
    | [] => exact keysNodup_aerase dp addr h
    | [e] => exact keysNodup_aerase dp addr h
    | e :: e2 :: rest => exact keysNodup_aset dp addr (e2 :: rest) h

theorem dpNonceExists_removeLowest (dp : DeferredPool) (addr s n : Nat)
    (hnd : KeysNodup dp)
    (h : dpNonceExists (dpRemoveLowest dp addr).2 s n = true) :
    dpNonceExists dp s n = true := by
  unfold dpRemoveLowest at h
  cases hb : alookup dp addr with
  | none => rwa [hb] at h
  | some bucket =>
    rw [hb] at h
    match bucket, hb with
    | [], hb =>
      by_cases hs : addr = s
      · subst hs
        unfold dpNonceExists at h
        rw [alookup_aerase_self dp addr hnd] at h
        simp at h
      · unfold dpNonceExists at h ⊢
        rwa [alookup_aerase_ne dp addr s hs] at h
    | [e], hb =>
      by_cases hs : addr = s
      · subst hs
        unfold dpNonceExists at h
        rw [alookup_aerase_self dp addr hnd] at h
        simp at h
      · unfold dpNonceExists at h ⊢
        rwa [alookup_aerase_ne dp addr s hs] at h
    | e :: e2 :: rest, hb =>
      by_cases hs : addr = s
      · subst hs
        unfold dpNonceExists at h ⊢
        rw [alookup_aset_self] at h
        rw [hb]
        exact bucketLookup_isSome_cons e (e2 :: rest) n h
      · unfold dpNonceExists at h ⊢
        rwa [alookup_aset_ne dp addr s (e2 :: rest) hs] at h

theorem gcEvict_deferred (st : PoolState) (victim : GcNode)
    (gc2 : List GcNode) (now : Nat) :
    (gcEvict st victim gc2 now).deferredPool
      = (dpRemoveLowest st.deferredPool victim.sender).2 := rfl

theorem gcEvict_txs (st : PoolState) (victim : GcNode) (gc2 : List GcNode)
    (now : Nat) :
    (gcEvict st victim gc2 now).txs
      = aerase st.txs
          (((dpRemoveLowest st.deferredPool victim.sender).1.getD
            panicEntry).transaction.hash) := rfl

theorem gcEvict_capacity (st : PoolState) (victim : GcNode)
    (gc2 : List GcNode) (now : Nat) :
    (gcEvict st victim gc2 now).capacity = st.capacity := rfl

theorem collectGarbageLoop_not_full (newTx : STx) (now : Nat) (fuel : Nat)
    (st : PoolState) (h : isFull st = false) :
    collectGarbageLoop newTx now fuel st = st := by
  cases fuel with
  | zero => rfl
  | succ f =>
    rw [collectGarbageLoop]
    rw [if_neg (by simp [h])]

theorem gcLoop_nonce_monotone (newTx : STx) (now : Nat) :
    ∀ (fuel : Nat) (st : PoolState), KeysNodup st.deferredPool →
      ∀ s n,
        dpNonceExists (collectGarbageLoop newTx now fuel st).deferredPool s n
          = true →
        dpNonceExists st.deferredPool s n = true := by
  intro fuel
  induction fuel with
  | zero =>
    intro st _ s n h
    exact h
  | succ f ih =>
    intro st hnd s n h
    rw [collectGarbageLoop] at h
    by_cases hcond : (isFull st ∧ st.garbageCollector ≠ [])
    · rw [if_pos hcond] at h
      rcases hdr : drainSelect st.deferredPool newTx.sender newTx.gasPrice
          st.garbageCollector GCCheckCount newTx.gasPrice none []
        with ⟨victimO, popped, remaining⟩
      simp only [hdr] at h
      cases victimO with
      | none => exact h
      | some victim =>
        have h2 := ih (gcEvict st victim _ now)
          (by rw [gcEvict_deferred]
              exact keysNodup_removeLowest _ _ hnd) s n h
        rw [gcEvict_deferred] at h2
        exact dpNonceExists_removeLowest _ _ _ _ hnd h2
    · rw [if_neg hcond] at h
      exact h

theorem drainSelect_victim_resident (dp : DeferredPool) (ns ngp : Nat) :
    ∀ (nodes : List GcNode) (cnt minGp : Nat) (victim : Option GcNode)
      (popped : List GcNode),
    (∀ v, victim = some v → dpContains dp v.sender = true) →
    ∀ v, (drainSelect dp ns ngp nodes cnt minGp victim popped).1 = some v →
      dpContains dp v.sender = true := by
  intro nodes
  induction nodes with
  | nil =>
    intro cnt minGp victim popped hv v hvv
    exact hv v hvv
  | cons node rest ih =>
    intro cnt minGp victim popped hv v hvv
    rw [drainSelect] at hvv
    by_cases hc0 : cnt = 0
    · rw [if_pos hc0] at hvv
      exact hv v hvv
    · rw [if_neg hc0] at hvv
      by_cases hcont : ¬ dpContains dp node.sender
      · rw [if_pos hcont] at hvv
        exact ih cnt minGp victim popped hv v hvv
      · rw [if_neg hcont] at hvv
        have hcn : dpContains dp node.sender = true := by
          simpa using hcont
        by_cases hcnt2 : 0 < node.count
        · rw [if_pos hcnt2] at hvv
          cases hvv
          exact hcn
        · rw [if_neg hcnt2] at hvv
          by_cases hsame : node.sender = ns
          · rw [if_pos hsame] at hvv
            exact ih _ _ _ _ hv v hvv
          · rw [if_neg hsame] at hvv
            by_cases hgp : gpOfLowest dp node.sender < minGp
            · rw [if_pos hgp] at hvv
              refine ih _ _ _ _ ?_ v hvv
              intro v2 hv2
              cases hv2
              exact hcn
            · rw [if_neg hgp] at hvv
              exact ih _ _ _ _ hv v hvv

theorem collectGarbageLoop_full_unchanged (newTx : STx) (now : Nat)
    (st : PoolState)
    (hcap : st.txs.length ≤ st.capacity)
    (hbuckets : ∀ addr b, alookup st.deferredPool addr = some b → b ≠ [])
    (hhash : ∀ addr e, dpLowestTx st.deferredPool addr = some e →
        e.transaction.hash ∈ st.txs.map Prod.fst) :
    ∀ fuel, isFull (collectGarbageLoop newTx now fuel st) = true →
      (collectGarbageLoop newTx now fuel st).deferredPool = st.deferredPool ∧
      (collectGarbageLoop newTx now fuel st).txs = st.txs ∧
      (collectGarbageLoop newTx now fuel st).readyAccountPool
          = st.readyAccountPool ∧
      (collectGarbageLoop newTx now fuel st).unpackedTransactionCount
          = st.unpackedTransactionCount ∧
      (collectGarbageLoop newTx now fuel st).readyNoncesAndBalances
          = st.readyNoncesAndBalances := by
  intro fuel
  cases fuel with
  | zero =>
    intro _
    exact ⟨rfl, rfl, rfl, rfl, rfl⟩
  | succ f =>
    rw [collectGarbageLoop]
    by_cases hcond : (isFull st ∧ st.garbageCollector ≠ [])
    · rw [if_pos hcond]
      rcases hdr : drainSelect st.deferredPool newTx.sender newTx.gasPrice
          st.garbageCollector GCCheckCount newTx.gasPrice none []
        with ⟨victimO, popped, remaining⟩
      simp only [hdr]
      cases victimO with
      | none =>
        intro _
        exact ⟨rfl, rfl, rfl, rfl, rfl⟩
      | some victim =>
        intro hfull_res
        exfalso
        have hfull2 : isFull (collectGarbageLoop newTx now f (gcEvict st victim
            (popped.foldl (fun acc node =>
              if node.sender = victim.sender then acc
              else gcInsert acc node.sender node.count node.timestamp)
              remaining) now)) = true := hfull_res
        have hcontv : dpContains st.deferredPool victim.sender = true := by
          refine drainSelect_victim_resident st.deferredPool newTx.sender
            newTx.gasPrice st.garbageCollector GCCheckCount newTx.gasPrice
            none [] (fun v h => nomatch h) victim ?_
          rw [hdr]
        obtain ⟨bucket, hb⟩ : ∃ b, alookup st.deferredPool victim.sender
            = some b := by
          unfold dpContains at hcontv
          exact Option.isSome_iff_exists.mp hcontv
        obtain ⟨e, rest2, rfl⟩ : ∃ e rest2, bucket = e :: rest2 := by
          cases bucket with
          | nil => exact absurd rfl (hbuckets _ _ hb)
          | cons e rest2 => exact ⟨e, rest2, rfl⟩
        have hlow : dpLowestTx st.deferredPool victim.sender = some e := by
          simp [dpLowestTx, hb, bucketLowest]
        have hmem := hhash _ _ hlow
        have hrem1 : (dpRemoveLowest st.deferredPool victim.sender).1
            = some e := by
          unfold dpRemoveLowest
          rw [hb]
          cases rest2 with
          | nil => rfl
          | cons e2 r2 => rfl
        have htxs : (gcEvict st victim
            (popped.foldl (fun acc node =>
              if node.sender = victim.sender then acc
              else gcInsert acc node.sender node.count node.timestamp)
              remaining) now).txs
            = aerase st.txs e.transaction.hash := by
          rw [gcEvict_txs, hrem1]
          rfl
        have hlen := aerase_length_of_mem st.txs e.transaction.hash hmem
        have hfst : st.capacity ≤ st.txs.length := by
          simpa [isFull] using hcond.1
        have hnf : isFull (gcEvict st victim
            (popped.foldl (fun acc node =>
              if node.sender = victim.sender then acc
              else gcInsert acc node.sender node.count node.timestamp)
              remaining) now) = false := by
          simp only [isFull, htxs, gcEvict_capacity]
          simp only [decide_eq_false_iff_not]
          omega
        rw [collectGarbageLoop_not_full newTx now f _ hnf] at hfull2
        rw [hnf] at hfull2
        exact nomatch hfull2
    · rw [if_neg hcond]
      intro _
      exact ⟨rfl, rfl, rfl, rfl, rfl⟩

/-! ### Claim C7 -/

theorem dpInsert_failed (dp : DeferredPool) (e : TxWithReadyInfo)
    (force : Bool) (reason : FailReason)
    (h : (dpInsert dp e force).1 = .Failed reason) :
    (dpInsert dp e force).2 = dp ∧
    dpNonceExists dp e.transaction.sender e.transaction.nonce = true := by
  cases hb : alookup dp e.transaction.sender with
  | none =>
    exfalso
    have h2 : (dpInsert dp e force).1 = .NewAdded := by
      simp only [dpInsert, noncePoolInsert, hb, Option.getD]
      rfl
    rw [h2] at h
    exact nomatch h
  | some b =>
    cases hold : bucketLookup b e.transaction.nonce with
    | none =>
      exfalso
      have hbd : (alookup dp e.transaction.sender).getD [] = b := by
        rw [hb]
        rfl
      have h2 : (dpInsert dp e force).1 = .NewAdded := by
        simp only [dpInsert, noncePoolInsert, hbd, hold]
      rw [h2] at h
      exact nomatch h
    | some old =>
      have heq := dpInsert_occupied dp e old force b hb hold
      by_cases hcond : (force
          || decide (old.transaction.gasPrice < e.transaction.gasPrice)) = true
      · exfalso
        rw [heq, if_pos hcond] at h
        exact nomatch h
      · rw [heq, if_neg (by simpa using hcond)]
        refine ⟨aset_lookup_self dp _ b hb, ?_⟩
        simp [dpNonceExists, hb, hold]

theorem insertCore_failed_unchanged (st1 : PoolState) (tx : STx)
    (packed force : Bool) (stateNB : Option (Nat × Nat)) (sg ss now : Nat)
    (reason : FailReason)
    (hres : (insertCore st1 tx packed force stateNB sg ss now).1
      = .Failed reason) :
    (insertCore st1 tx packed force stateNB sg ss now).2 = st1 ∧
    dpNonceExists st1.deferredPool tx.sender tx.nonce = true := by
  rcases hr : (dpInsert st1.deferredPool ⟨tx, packed, sg, ss⟩ force).1
    with _ | replaced | r2
  · exfalso
    have h2 : (insertCore st1 tx packed force stateNB sg ss now).1
        = .NewAdded := by
      simp only [insertCore, hr]
    rw [h2] at hres
    exact nomatch hres
  · exfalso
    have h2 : (insertCore st1 tx packed force stateNB sg ss now).1
        = .Updated replaced := by
      simp only [insertCore, hr]
    rw [h2] at hres
    exact nomatch hres
  · have hdp := dpInsert_failed st1.deferredPool ⟨tx, packed, sg, ss⟩
      force r2 hr
    have h2 : (insertCore st1 tx packed force stateNB sg ss now).2
        = { st1 with
            deferredPool :=
              (dpInsert st1.deferredPool ⟨tx, packed, sg, ss⟩ force).2 } := by
      simp only [insertCore, hr]
    rw [h2, hdp.1]
    exact ⟨rfl, hdp.2⟩

theorem insertWithout_failed_unchanged (st0 : PoolState) (tx : STx)
    (packed force : Bool) (stateNB : Option (Nat × Nat)) (sg ss now : Nat)
    (reason : FailReason)
    (hnd : KeysNodup st0.deferredPool)
    (hcap : st0.txs.length ≤ st0.capacity)
    (hbuckets : ∀ addr b, alookup st0.deferredPool addr = some b → b ≠ [])
    (hhash : ∀ addr e, dpLowestTx st0.deferredPool addr = some e →
        e.transaction.hash ∈ st0.txs.map Prod.fst)
    (hres : (insertWithout st0 tx packed force stateNB sg ss now).1
      = .Failed reason) :
    (insertWithout st0 tx packed force stateNB sg ss now).2.deferredPool
        = st0.deferredPool ∧
    (insertWithout st0 tx packed force stateNB sg ss now).2.txs = st0.txs ∧
    (insertWithout st0 tx packed force stateNB sg ss now).2.readyAccountPool
        = st0.readyAccountPool ∧
    (insertWithout st0 tx packed force stateNB sg ss
        now).2.unpackedTransactionCount = st0.unpackedTransactionCount ∧
    (insertWithout st0 tx packed force stateNB sg ss
        now).2.readyNoncesAndBalances = st0.readyNoncesAndBalances := by
  by_cases hfr : dpNonceExists st0.deferredPool tx.sender tx.nonce = true
  · have he : insertWithout st0 tx packed force stateNB sg ss now
        = insertCore st0 tx packed force stateNB sg ss now := by
      simp only [insertWithout, if_pos hfr]
    rw [he] at hres ⊢
    have h2 := insertCore_failed_unchanged st0 tx packed force stateNB sg ss
      now reason hres
    rw [h2.1]
    exact ⟨rfl, rfl, rfl, rfl, rfl⟩
  · have hfr2 : dpNonceExists st0.deferredPool tx.sender tx.nonce = false := by
      simpa using hfr
    by_cases hfull : isFull (collectGarbage st0 tx now) = true
    · have he : insertWithout st0 tx packed force stateNB sg ss now
          = (.Failed .poolFull, collectGarbage st0 tx now) := by
        simp only [insertWithout, hfr2, Bool.false_eq_true, if_false,
          if_pos hfull]
      rw [he]
      unfold collectGarbage at hfull ⊢
      exact collectGarbageLoop_full_unchanged tx now st0 hcap hbuckets hhash
        (st0.txs.length + 1) hfull
    · have he : insertWithout st0 tx packed force stateNB sg ss now
          = insertCore (collectGarbage st0 tx now) tx packed force stateNB
              sg ss now := by
        simp only [insertWithout, hfr2, Bool.false_eq_true, if_false,
          if_neg hfull]
      rw [he] at hres
      exfalso
      have h2 := insertCore_failed_unchanged (collectGarbage st0 tx now) tx
        packed force stateNB sg ss now reason hres
      have h3 := gcLoop_nonce_monotone tx now (st0.txs.length + 1) st0 hnd
        tx.sender tx.nonce h2.2
      exact hfr h3

/-- Amended C7: whenever `insert_transaction_with_readiness_check` returns
an error and the post-insert storage re-read succeeds, the pool state is
unchanged: the deferred pool, the hash map, the ready index, the unpacked
counter and the nonce/balance cache are as before the call.  (When the
re-read fails after a successful insert, the transaction stays resident:
see the counterexample.) -/
theorem claim_C7 (su : Nat) (st : PoolState) (tx : STx) (packed force : Bool)
    (sponsorRes nb1 : Except Unit (Nat × Nat)) (nb2v : Nat × Nat) (now : Nat)
    (err : InsertError)
    (hnd : KeysNodup st.deferredPool)
    (hcap : st.txs.length ≤ st.capacity)
    (hbuckets : ∀ addr b, alookup st.deferredPool addr = some b → b ≠ [])
    (hhash : ∀ addr e, dpLowestTx st.deferredPool addr = some e →
        e.transaction.hash ∈ st.txs.map Prod.fst)
    (herr : (insertWithReadinessCheck su st tx packed force sponsorRes nb1
        (.ok nb2v) now).1 = some err) :
    (insertWithReadinessCheck su st tx packed force sponsorRes nb1
        (.ok nb2v) now).2.deferredPool = st.deferredPool ∧
    (insertWithReadinessCheck su st tx packed force sponsorRes nb1
        (.ok nb2v) now).2.txs = st.txs ∧
    (insertWithReadinessCheck su st tx packed force sponsorRes nb1
        (.ok nb2v) now).2.readyAccountPool = st.readyAccountPool ∧
    (insertWithReadinessCheck su st tx packed force sponsorRes nb1
        (.ok nb2v) now).2.unpackedTransactionCount
        = st.unpackedTransactionCount ∧
    (insertWithReadinessCheck su st tx packed force sponsorRes nb1
        (.ok nb2v) now).2.readyNoncesAndBalances
        = st.readyNoncesAndBalances := by
  cases sponsorRes with
  | error e => exact ⟨rfl, rfl, rfl, rfl, rfl⟩
  | ok sgss =>
    obtain ⟨sg, ss⟩ := sgss
    cases nb1 with
    | error e => exact ⟨rfl, rfl, rfl, rfl, rfl⟩
    | ok nb =>
      obtain ⟨sn, sb⟩ := nb
      by_cases hfar : sn + FurthestFutureNonceOffset ≤ tx.nonce
      · have hst : (insertWithReadinessCheck su st tx packed force
            (.ok (sg, ss)) (.ok (sn, sb)) (.ok nb2v) now).2 = st := by
          simp only [insertWithReadinessCheck, if_pos hfar]
        rw [hst]
        exact ⟨rfl, rfl, rfl, rfl, rfl⟩
      · by_cases hstale : (packed = false ∧ tx.nonce < sn)
        · have hst : (insertWithReadinessCheck su st tx packed force
              (.ok (sg, ss)) (.ok (sn, sb)) (.ok nb2v) now).2 = st := by
            simp only [insertWithReadinessCheck, if_neg hfar, if_pos hstale]
          rw [hst]
          exact ⟨rfl, rfl, rfl, rfl, rfl⟩
        · rcases hr1 : (insertWithout st tx packed force (some (sn, sb)) sg ss
              now).1 with _ | replaced | reason
          · exfalso
            have hnone : (insertWithReadinessCheck su st tx packed force
                (.ok (sg, ss)) (.ok (sn, sb)) (.ok nb2v) now).1 = none := by
              simp only [insertWithReadinessCheck, if_neg hfar,
                if_neg hstale, hr1]
              rfl
            rw [hnone] at herr
            exact nomatch herr
          · exfalso
            have hnone : (insertWithReadinessCheck su st tx packed force
                (.ok (sg, ss)) (.ok (sn, sb)) (.ok nb2v) now).1 = none := by
              simp only [insertWithReadinessCheck, if_neg hfar,
                if_neg hstale, hr1]
              rfl
            rw [hnone] at herr
            exact nomatch herr
          · have h2 : (insertWithReadinessCheck su st tx packed force
                (.ok (sg, ss)) (.ok (sn, sb)) (.ok nb2v) now).2
                = (insertWithout st tx packed force (some (sn, sb)) sg ss
                  now).2 := by
              simp only [insertWithReadinessCheck, if_neg hfar,
                if_neg hstale, hr1]
            rw [h2]
            exact insertWithout_failed_unchanged st tx packed force
              (some (sn, sb)) sg ss now reason hnd hcap hbuckets hhash hr1

/-- Resident entry for the C7 witness (sender 1, nonce 0, gas price 10). -/
def entC7 : TxWithReadyInfo := mkEntry 0 10 100 false

/-- A well-formed one-transaction pool for the C7 witness. -/
def stC7 : PoolState :=
  { capacity := 10, totalReceivedCount := 1, unpackedTransactionCount := 1,
    deferredPool := [(1, [entC7])],
    readyAccountPool := { treap := [], txWeightScaling := 1, txWeightExp := 1 },
    readyNoncesAndBalances := [], garbageCollector := [],
    txs := [(entC7.transaction.hash, entC7.transaction)],
    txSponsoredGasMap := [] }

/-- Witness for C7: re-submitting the resident transaction at the same
nonce and gas price fails (`ReplaceUnderpriced`) and every named component
of the pool is unchanged. -/
theorem claim_C7_witness :
    (insertWithReadinessCheck 1 stC7 entC7.transaction false false
        (.ok (0, 0)) (.ok (0, 1000000000)) (.ok (0, 1000000000)) 0
      ).2.deferredPool = stC7.deferredPool ∧
    (insertWithReadinessCheck 1 stC7 entC7.transaction false false
        (.ok (0, 0)) (.ok (0, 1000000000)) (.ok (0, 1000000000)) 0
      ).2.txs = stC7.txs ∧
    (insertWithReadinessCheck 1 stC7 entC7.transaction false false
        (.ok (0, 0)) (.ok (0, 1000000000)) (.ok (0, 1000000000)) 0
      ).2.readyAccountPool = stC7.readyAccountPool ∧
    (insertWithReadinessCheck 1 stC7 entC7.transaction false false
        (.ok (0, 0)) (.ok (0, 1000000000)) (.ok (0, 1000000000)) 0
      ).2.unpackedTransactionCount = stC7.unpackedTransactionCount ∧
    (insertWithReadinessCheck 1 stC7 entC7.transaction false false
        (.ok (0, 0)) (.ok (0, 1000000000)) (.ok (0, 1000000000)) 0
      ).2.readyNoncesAndBalances = stC7.readyNoncesAndBalances := by
  refine claim_C7 1 stC7 entC7.transaction false false (.ok (0, 0))
    (.ok (0, 1000000000)) (0, 1000000000) 0
    (.deferredFailed (.replaceUnderpriced 10)) (by decide) (by decide)
    ?_ ?_ (by decide)
  · intro addr b h
    simp only [stC7, alookup] at h
    by_cases h1 : (1 : Nat) = addr
    · rw [if_pos h1] at h
      cases h
      decide
    · rw [if_neg h1] at h
      cases h
  · intro addr e h
    simp only [stC7, dpLowestTx, alookup] at h
    by_cases h1 : (1 : Nat) = addr
    · rw [if_pos h1] at h
      simp only [Option.bind] at h
      cases h
      decide
    · rw [if_neg h1] at h
      cases h

/-- A fresh transaction for the C7 counterexample. -/
def txC7 : STx :=
  { sender := 1, nonce := 0, gasPrice := 10, gasLimit := 21000, value := 1,
    storageLimit := 0, hash := 55, rlpSize := 100 }

/-- Counterexample to C7 as stated: when the storage re-read inside the
post-insert readiness recalculation fails, the function returns an error
although the transaction was already inserted: it is resident in the
deferred pool and the hash map, and the unpacked counter moved. -/
theorem claim_C7_counterexample :
    (insertWithReadinessCheck 1 (newPool 4 1 1) txC7 false false (.ok (0, 0))
        (.ok (0, 1000000000)) (.error ()) 0).1 = some .oracleFailure ∧
    dpNonceExists (insertWithReadinessCheck 1 (newPool 4 1 1) txC7 false false
        (.ok (0, 0)) (.ok (0, 1000000000)) (.error ()) 0).2.deferredPool
        txC7.sender txC7.nonce = true ∧
    alookup (insertWithReadinessCheck 1 (newPool 4 1 1) txC7 false false
        (.ok (0, 0)) (.ok (0, 1000000000)) (.error ()) 0).2.txs txC7.hash
      = some txC7 ∧
    (insertWithReadinessCheck 1 (newPool 4 1 1) txC7 false false (.ok (0, 0))
        (.ok (0, 1000000000)) (.error ()) 0).2.unpackedTransactionCount
      = 1 := by
  refine ⟨?_, ?_, ?_, ?_⟩ <;> decide

/-! ### Packing (source lines 817–924) and notification (926–936) -/

/-- `verification::PackingCheckResult`: the outcome of the fast recheck a
drawn transaction undergoes during packing (the verifier itself is outside
the pool and enters the model as a function). -/
inductive PackingCheckResult
  | Pack
  | Pending
  | Drop
  deriving DecidableEq, Repr

/-- The drawing loop of `pack_transactions` (source lines 839–889).  Every
iteration consumes one random draw from the script (the script doubles as
the loop fuel: executions of the source correspond to scripts long enough
for the loop to reach its own exit).  A pop panic aborts the program; the
trace model stops there.  `selected` and `recycle` are accumulated in
reverse; the last component counts oversized draws followed by a continued
loop (an observation used by claim C4, not source state). -/
def packLoop (su : Nat) (recheck : STx → PackingCheckResult) (numTxs : Nat)
    (blockGasLimit blockSizeLimit : Nat) (now : Nat) :
    List Nat → PoolState → Nat → Nat → Nat → List STx → List STx → Nat →
    List STx × List STx × PoolState × Nat
  | [], st, _, _, _, selected, recycle, oc =>
    (selected.reverse, recycle.reverse, st, oc)
  | rand :: randRest, st, totalGas, totalSize, budget, selected, recycle, oc =>
    match rapPop st.readyAccountPool rand with
    | .error _ => (selected.reverse, recycle.reverse, st, oc)
    | .ok (none, rap2) =>
      (selected.reverse, recycle.reverse,
        { st with readyAccountPool := rap2 }, oc)
    | .ok (some tx, rap2) =>
      let st1 : PoolState := { st with readyAccountPool := rap2 }
      if blockGasLimit - totalGas < tx.gasLimit
          ∨ blockSizeLimit - totalSize < tx.rlpSize then
        if 0 < budget then
          packLoop su recheck numTxs blockGasLimit blockSizeLimit now
            randRest st1 totalGas totalSize (budget - 1) selected
            (tx :: recycle) (oc + 1)
        else
          (selected.reverse, (tx :: recycle).reverse, st1, oc)
      else
        match recheck tx with
        | .Pending =>
          packLoop su recheck numTxs blockGasLimit blockSizeLimit now
            randRest st1 totalGas totalSize budget selected (tx :: recycle) oc
        | .Drop =>
          packLoop su recheck numTxs blockGasLimit blockSizeLimit now
            randRest st1 totalGas totalSize budget selected recycle oc
        | .Pack =>
          let sp := (alookup st1.txSponsoredGasMap tx.hash).getD (0, 0)
          let st2 := (insertWithout st1 tx true true none sp.1 sp.2 now).2
          let st3 := recalcLocal su st2 tx.sender
          if numTxs ≤ selected.length + 1 then
            ((tx :: selected).reverse, recycle.reverse, st3, oc)
          else
            packLoop su recheck numTxs blockGasLimit blockSizeLimit now
              randRest st3 (totalGas + tx.gasLimit)
              (totalSize + tx.rlpSize) budget (tx :: selected) recycle oc

/-- `TransactionPoolInner::pack_transactions` (source lines 817–924): run
the drawing loop with a resample budget of 10, put the recycled
transactions back into the ready index, and rewrite the selected set in
reverse order with `packed = false, force = true`. -/
def packTransactions (su : Nat) (recheck : STx → PackingCheckResult)
    (st : PoolState) (numTxs blockGasLimit blockSizeLimit : Nat)
    (randScript : List Nat) (now : Nat) : List STx × PoolState :=
  if numTxs = 0 then ([], st)
  else
    let r := packLoop su recheck numTxs blockGasLimit blockSizeLimit now
      randScript st 0 0 10 [] [] 0
    let stR := r.2.1.foldl (fun acc tx =>
      { acc with readyAccountPool := rapInsertTx acc.readyAccountPool tx })
      r.2.2.1
    let stW := r.1.reverse.foldl (fun acc tx =>
      let sp := (alookup acc.txSponsoredGasMap tx.hash).getD (0, 0)
      recalcLocal su (insertWithout acc tx false true none sp.1 sp.2 now).2
        tx.sender) stR
    (r.1, stW)

/-- `TransactionPoolInner::notify_modified_accounts` (source lines
926–936): refresh readiness with the executed accounts' fixed info. -/
def notifyModifiedAccounts (su : Nat) (st : PoolState)
    (accounts : List (Nat × Nat × Nat)) (now : Nat) : PoolState :=
  accounts.foldl (fun acc a => recalcFixed su acc a.1 a.2.1 a.2.2 now) st

/-! ### Claim C4 -/

theorem packLoop_oc_le (su : Nat) (recheck : STx → PackingCheckResult)
    (numTxs blockGasLimit blockSizeLimit now : Nat) :
    ∀ (script : List Nat) (st : PoolState) (tg ts budget : Nat)
      (sel rec : List STx) (oc : Nat),
      (packLoop su recheck numTxs blockGasLimit blockSizeLimit now script st
        tg ts budget sel rec oc).2.2.2 ≤ oc + budget := by
  intro script
  induction script with
  | nil =>
    intro st tg ts budget sel rec oc
    exact Nat.le_add_right oc budget
  | cons rand rest ih =>
    intro st tg ts budget sel rec oc
    rw [packLoop]
    split
    · exact Nat.le_add_right oc budget
    · exact Nat.le_add_right oc budget
    · rename_i tx rap2 hpop
      dsimp only
      by_cases hov : (blockGasLimit - tg < tx.gasLimit
          ∨ blockSizeLimit - ts < tx.rlpSize)
      · rw [if_pos hov]
        by_cases hbud : 0 < budget
        · rw [if_pos hbud]
          have h2 := ih { st with readyAccountPool := rap2 } tg ts
            (budget - 1) sel (tx :: rec) (oc + 1)
          omega
        · rw [if_neg hbud]
          exact Nat.le_add_right oc budget
      · rw [if_neg hov]
        rcases hchk : recheck tx with _ | _ | _
        · dsimp only
          by_cases hnum : numTxs ≤ sel.length + 1
          · rw [if_pos hnum]
            exact Nat.le_add_right oc budget
          · rw [if_neg hnum]
            exact ih _ _ _ budget _ _ oc
        · dsimp only
          exact ih _ tg ts budget sel (tx :: rec) oc
        · dsimp only
          exact ih _ tg ts budget sel rec oc

/-- Amended C4: the source tests the resample budget before decrementing:
on an oversized draw the transaction goes to the recycle list and the loop
continues (decrementing the budget) iff the budget was positive before the
decrement, terminating without a decrement at zero; consequently up to 10
(not 9) oversized draws can be followed by a continued loop, and never
more than 10. -/
theorem claim_C4 (su : Nat) (recheck : STx → PackingCheckResult)
    (numTxs blockGasLimit blockSizeLimit now : Nat) :
    (∀ (rand : Nat) (randRest : List Nat) (st : PoolState)
       (totalGas totalSize budget : Nat) (selected recycle : List STx)
       (oc : Nat) (tx : STx) (rap2 : ReadyAccountPool),
      rapPop st.readyAccountPool rand = .ok (some tx, rap2) →
      (blockGasLimit - totalGas < tx.gasLimit
        ∨ blockSizeLimit - totalSize < tx.rlpSize) →
      (0 < budget →
        packLoop su recheck numTxs blockGasLimit blockSizeLimit now
            (rand :: randRest) st totalGas totalSize budget selected recycle
            oc
          = packLoop su recheck numTxs blockGasLimit blockSizeLimit now
            randRest { st with readyAccountPool := rap2 } totalGas totalSize
            (budget - 1) selected (tx :: recycle) (oc + 1)) ∧
      (budget = 0 →
        packLoop su recheck numTxs blockGasLimit blockSizeLimit now
            (rand :: randRest) st totalGas totalSize budget selected recycle
            oc
          = (selected.reverse, (tx :: recycle).reverse,
             { st with readyAccountPool := rap2 }, oc))) ∧
    (∀ (randScript : List Nat) (st : PoolState),
      (packLoop su recheck numTxs blockGasLimit blockSizeLimit now randScript
          st 0 0 10 [] [] 0).2.2.2 ≤ 10) := by
  constructor
  · intro rand randRest st totalGas totalSize budget selected recycle oc tx
      rap2 hpop hov
    constructor
    · intro hbud
      rw [packLoop]
      simp only [hpop]
      rw [if_pos hov, if_pos hbud]
    · intro hbud
      subst hbud
      rw [packLoop]
      simp only [hpop]
      rw [if_pos hov, if_neg (by omega)]
  · intro randScript st
    exact packLoop_oc_le su recheck numTxs blockGasLimit blockSizeLimit now
      randScript st 0 0 10 [] [] 0

/-- A minimal transaction with unit gas limit and size. -/
def smallTx (i : Nat) : STx :=
  { sender := i, nonce := 0, gasPrice := 1, gasLimit := 1, value := 0,
    storageLimit := 0, hash := i, rlpSize := 1 }

/-- A one-entry ready index (weight 5) for the C4 witness. -/
def stP4 : PoolState :=
  { newPool 100 1 1 with
    readyAccountPool :=
      { treap := [(1, (smallTx 1, 5))], txWeightScaling := 1,
        txWeightExp := 1 } }

/-- The empty ready index with the C4 witness configuration. -/
def rapP4 : ReadyAccountPool :=
  { treap := [], txWeightScaling := 1, txWeightExp := 1 }

/-- Witness for C4: one oversized draw with a positive budget recycles the
transaction, decrements the budget and continues; the oversized-continue
count of a full run is at most 10. -/
theorem claim_C4_witness :
    packLoop 1 (fun _ => .Pack) 5 0 0 0 [3] stP4 0 0 10 [] [] 0
      = packLoop 1 (fun _ => .Pack) 5 0 0 0 []
          { stP4 with readyAccountPool := rapP4 } 0 0 9 [] [smallTx 1] 1 ∧
    (packLoop 1 (fun _ => .Pack) 5 0 0 0 [3, 3] stP4 0 0 10 [] [] 0).2.2.2
      ≤ 10 :=
  ⟨((claim_C4 1 (fun _ => .Pack) 5 0 0 0).1 3 [] stP4 0 0 10 [] [] 0
      (smallTx 1) rapP4 rfl (by decide)).1 (by decide),
   (claim_C4 1 (fun _ => .Pack) 5 0 0 0).2 [3, 3] stP4⟩

/-- The drawing loop as claim C4 words it (decrement first, continue only
if the budget is still positive after the decrement); kept only to compare
against the source loop. -/
def packLoopAsClaimed (su : Nat) (recheck : STx → PackingCheckResult)
    (numTxs : Nat) (blockGasLimit blockSizeLimit : Nat) (now : Nat) :
    List Nat → PoolState → Nat → Nat → Nat → List STx → List STx → Nat →
    List STx × List STx × PoolState × Nat
  | [], st, _, _, _, selected, recycle, oc =>
    (selected.reverse, recycle.reverse, st, oc)
  | rand :: randRest, st, totalGas, totalSize, budget, selected, recycle, oc =>
    match rapPop st.readyAccountPool rand with
    | .error _ => (selected.reverse, recycle.reverse, st, oc)
    | .ok (none, rap2) =>
      (selected.reverse, recycle.reverse,
        { st with readyAccountPool := rap2 }, oc)
    | .ok (some tx, rap2) =>
      let st1 : PoolState := { st with readyAccountPool := rap2 }
      if blockGasLimit - totalGas < tx.gasLimit
          ∨ blockSizeLimit - totalSize < tx.rlpSize then
        if 0 < budget - 1 then
          packLoopAsClaimed su recheck numTxs blockGasLimit blockSizeLimit
            now randRest st1 totalGas totalSize (budget - 1) selected
            (tx :: recycle) (oc + 1)
        else
          (selected.reverse, (tx :: recycle).reverse, st1, oc)
      else
        match recheck tx with
        | .Pending =>
          packLoopAsClaimed su recheck numTxs blockGasLimit blockSizeLimit
            now randRest st1 totalGas totalSize budget selected
            (tx :: recycle) oc
        | .Drop =>
          packLoopAsClaimed su recheck numTxs blockGasLimit blockSizeLimit
            now randRest st1 totalGas totalSize budget selected recycle oc
        | .Pack =>
          let sp := (alookup st1.txSponsoredGasMap tx.hash).getD (0, 0)
          let st2 := (insertWithout st1 tx true true none sp.1 sp.2 now).2
          let st3 := recalcLocal su st2 tx.sender
          if numTxs ≤ selected.length + 1 then
            ((tx :: selected).reverse, recycle.reverse, st3, oc)
          else
            packLoopAsClaimed su recheck numTxs blockGasLimit blockSizeLimit
              now randRest st3 (totalGas + tx.gasLimit)
              (totalSize + tx.rlpSize) budget (tx :: selected) recycle oc

/-- A twelve-entry ready index of unit-weight, unit-gas transactions. -/
def stC4 : PoolState :=
  { newPool 100 1 1 with
    readyAccountPool :=
      { treap := (List.range 12).map (fun i => (i + 1, (smallTx (i + 1), 1))),
        txWeightScaling := 1, txWeightExp := 1 } }

/-- Counterexample to C4 as stated: starting from budget 10, twelve
available oversized draws lead the source loop through 10 oversized draws
each followed by a continued loop (and 11 recycled transactions) — the
claim allows at most 9 — while the decrement-then-test loop of the claim
stops after 9 continues and 10 recycles. -/
theorem claim_C4_counterexample :
    (packLoop 1 (fun _ => .Pack) 5 0 0 0 (List.replicate 12 0) stC4
        0 0 10 [] [] 0).2.2.2 = 10 ∧
    (packLoop 1 (fun _ => .Pack) 5 0 0 0 (List.replicate 12 0) stC4
        0 0 10 [] [] 0).2.1.length = 11 ∧
    (packLoopAsClaimed 1 (fun _ => .Pack) 5 0 0 0 (List.replicate 12 0) stC4
        0 0 10 [] [] 0).2.2.2 = 9 ∧
    (packLoopAsClaimed 1 (fun _ => .Pack) 5 0 0 0 (List.replicate 12 0) stC4
        0 0 10 [] [] 0).2.1.length = 10 := by
  refine ⟨?_, ?_, ?_, ?_⟩ <;> decide

/-! ### Counting unpacked entries (for claim C8) -/

/-- Number of entries with `packed == false` in a bucket. -/
def bucketUnpacked (b : Bucket) : Nat :=
  b.countP (fun e => !e.packed)

/-- Number of unpacked transactions resident in the deferred pool
(spec invariant I3's right-hand side). -/
def dpUnpackedCount (dp : DeferredPool) : Nat :=
  (dp.map (fun p => bucketUnpacked p.2)).sum

/-- Empty buckets are always removed from the deferred pool. -/
def BucketsNonempty (dp : DeferredPool) : Prop :=
  ∀ p ∈ dp, p.2 ≠ []

/-- The C8 invariant: the pool counter matches the resident unpacked count,
and no empty bucket is kept. -/
def CountInv (st : PoolState) : Prop :=
  st.unpackedTransactionCount = dpUnpackedCount st.deferredPool ∧
  BucketsNonempty st.deferredPool

theorem alookup_mem {α : Type} (l : List (Nat × α)) (k : Nat) (v : α)
    (h : alookup l k = some v) : (k, v) ∈ l := by
  induction l with
  | nil => cases h
  | cons p rest ih =>
    obtain ⟨pk, pv⟩ := p
    by_cases h2 : pk = k
    · subst h2
      simp only [alookup, if_pos rfl] at h
      cases h
      simp
    · simp only [alookup, h2, if_false] at h
      simp [ih h]

theorem mem_aset {α : Type} (l : List (Nat × α)) (k : Nat) (v : α)
    (q : Nat × α) : q ∈ aset l k v → q = (k, v) ∨ q ∈ l := by
  induction l with
  | nil =>
    intro h
    simp [aset] at h
    exact Or.inl h
  | cons p rest ih =>
    obtain ⟨pk, pv⟩ := p
    intro h
    by_cases h2 : pk = k
    · subst h2
      have hset : aset ((pk, pv) :: rest) pk v = (pk, v) :: rest := by
        simp [aset]
      rw [hset] at h
      rcases List.mem_cons.mp h with h3 | h3
      · exact Or.inl h3
      · exact Or.inr (List.mem_cons_of_mem _ h3)
    · have hset : aset ((pk, pv) :: rest) k v = (pk, pv) :: aset rest k v := by
        simp [aset, h2]
      rw [hset] at h
      rcases List.mem_cons.mp h with h3 | h3
      · exact Or.inr (by simp [h3])
      · rcases ih h3 with h4 | h4
        · exact Or.inl h4
        · exact Or.inr (List.mem_cons_of_mem _ h4)

theorem aerase_sublist {α : Type} (l : List (Nat × α)) (k : Nat) :
    (aerase l k).Sublist l := by
  induction l with
  | nil => simp [aerase]
  | cons p rest ih =>
    obtain ⟨pk, pv⟩ := p
    by_cases h2 : pk = k
    · simp only [aerase, h2, if_true]
      exact List.sublist_cons_self _ _
    · simp only [aerase, h2, if_false]
      exact ih.cons₂ (pk, pv)

theorem dpUnpacked_aset_some (dp : DeferredPool) (k : Nat) (b b2 : Bucket) :
    alookup dp k = some b →
    dpUnpackedCount (aset dp k b2) + bucketUnpacked b
      = dpUnpackedCount dp + bucketUnpacked b2 := by
  induction dp with
  | nil => intro h; cases h
  | cons p rest ih =>
    obtain ⟨pk, pv⟩ := p
    intro h
    by_cases h2 : pk = k
    · subst h2
      simp only [alookup, if_pos rfl] at h
      cases h
      have hset : aset ((pk, b) :: rest) pk b2 = (pk, b2) :: rest := by
        simp [aset]
      rw [hset]
      simp only [dpUnpackedCount, List.map_cons, List.sum_cons]
      omega
    · simp only [alookup, h2, if_false] at h
      have hset : aset ((pk, pv) :: rest) k b2 = (pk, pv) :: aset rest k b2 := by
        simp [aset, h2]
      rw [hset]
      simp only [dpUnpackedCount, List.map_cons, List.sum_cons]
      have h3 := ih h
      simp only [dpUnpackedCount] at h3
      omega

theorem dpUnpacked_aset_none (dp : DeferredPool) (k : Nat) (b2 : Bucket) :
    alookup dp k = none →
    dpUnpackedCount (aset dp k b2) = dpUnpackedCount dp + bucketUnpacked b2 := by
  induction dp with
  | nil =>
    intro _
    simp [aset, dpUnpackedCount]
  | cons p rest ih =>
    obtain ⟨pk, pv⟩ := p
    intro h
    by_cases h2 : pk = k
    · subst h2
      simp [alookup] at h
    · simp only [alookup, h2, if_false] at h
      have hset : aset ((pk, pv) :: rest) k b2 = (pk, pv) :: aset rest k b2 := by
        simp [aset, h2]
      rw [hset]
      simp only [dpUnpackedCount, List.map_cons, List.sum_cons]
      have h3 := ih h
      simp only [dpUnpackedCount] at h3
      omega

theorem dpUnpacked_aerase (dp : DeferredPool) (k : Nat) (b : Bucket) :
    alookup dp k = some b →
    dpUnpackedCount (aerase dp k) + bucketUnpacked b = dpUnpackedCount dp := by
  induction dp with
  | nil => intro h; cases h
  | cons p rest ih =>
    obtain ⟨pk, pv⟩ := p
    intro h
    by_cases h2 : pk = k
    · subst h2
      simp only [alookup, if_pos rfl] at h
      cases h
      have hset : aerase ((pk, b) :: rest) pk = rest := by
        simp [aerase]
      rw [hset]
      simp only [dpUnpackedCount, List.map_cons, List.sum_cons]
      omega
    · simp only [alookup, h2, if_false] at h
      have hset : aerase ((pk, pv) :: rest) k = (pk, pv) :: aerase rest k := by
        simp [aerase, h2]
      rw [hset]
      simp only [dpUnpackedCount, List.map_cons, List.sum_cons]
      have h3 := ih h
      simp only [dpUnpackedCount] at h3
      omega

theorem bucketUnpacked_le_dp (dp : DeferredPool) (k : Nat) (b : Bucket) :
    alookup dp k = some b → bucketUnpacked b ≤ dpUnpackedCount dp := by
  induction dp with
  | nil => intro h; cases h
  | cons p rest ih =>
    obtain ⟨pk, pv⟩ := p
    intro h
    by_cases h2 : pk = k
    · subst h2
      simp only [alookup, if_pos rfl] at h
      cases h
      simp only [dpUnpackedCount, List.map_cons, List.sum_cons]
      omega
    · simp only [alookup, h2, if_false] at h
      have h3 := ih h
      simp only [dpUnpackedCount, List.map_cons, List.sum_cons]
      simp only [dpUnpackedCount] at h3
      omega

theorem bucketUnpacked_bucketAdd (tx : TxWithReadyInfo) (b : Bucket) :
    bucketUnpacked (bucketAdd tx b)
      = bucketUnpacked b + (if tx.packed then 0 else 1) := by
  induction b with
  | nil =>
    simp only [bucketAdd, bucketUnpacked, List.countP_cons, List.countP_nil]
    cases h : tx.packed <;> simp [h]
  | cons e rest ih =>
    by_cases h2 : tx.transaction.nonce < e.transaction.nonce
    · simp only [bucketAdd, if_pos h2, bucketUnpacked, List.countP_cons]
      simp only [bucketUnpacked] at ih ⊢
      cases h : tx.packed <;> simp [h] <;> omega
    · simp only [bucketAdd, if_neg h2, bucketUnpacked, List.countP_cons]
      simp only [bucketUnpacked] at ih
      rw [ih]
      cases h : tx.packed <;> simp [h] <;> omega

theorem bucketUnpacked_bucketReplace (tx : TxWithReadyInfo) (b : Bucket)
    (old : TxWithReadyInfo)
    (h : bucketLookup b tx.transaction.nonce = some old) :
    bucketUnpacked (bucketReplace tx b) + (if old.packed then 0 else 1)
      = bucketUnpacked b + (if tx.packed then 0 else 1) := by
  induction b with
  | nil => cases h
  | cons e rest ih =>
    by_cases h2 : e.transaction.nonce = tx.transaction.nonce
    · rw [bucketLookup_cons_self e rest _ h2] at h
      cases h
      simp only [bucketReplace, if_pos h2, bucketUnpacked, List.countP_cons]
      cases h3 : tx.packed <;> cases h4 : old.packed <;> simp [h3, h4] <;> omega
    · rw [bucketLookup_cons_ne e rest _ h2] at h
      simp only [bucketReplace, h2, if_false, bucketUnpacked,
        List.countP_cons]
      simp only [bucketUnpacked] at ih
      have := ih h
      omega

theorem bucketUnpacked_pos (b : Bucket) (e : TxWithReadyInfo)
    (hm : e ∈ b) (hp : e.packed = false) : 0 < bucketUnpacked b := by
  rw [bucketUnpacked, List.countP_pos]
  exact ⟨e, hm, by simp [hp]⟩

theorem bucketAdd_ne_nil (tx : TxWithReadyInfo) (b : Bucket) :
    bucketAdd tx b ≠ [] := by
  cases b with
  | nil => simp [bucketAdd]
  | cons e rest =>
    simp only [bucketAdd]
    split <;> simp

theorem bucketReplace_ne_nil (tx : TxWithReadyInfo) (b : Bucket)
    (h : b ≠ []) : bucketReplace tx b ≠ [] := by
  cases b with
  | nil => exact absurd rfl h
  | cons e rest =>
    simp only [bucketReplace]
    split <;> simp

theorem dpInsert_newAdded (dp : DeferredPool) (e : TxWithReadyInfo)
    (force : Bool)
    (h : (dpInsert dp e force).1 = .NewAdded) :
    dpUnpackedCount (dpInsert dp e force).2
        = dpUnpackedCount dp + (if e.packed then 0 else 1) ∧
    (BucketsNonempty dp → BucketsNonempty (dpInsert dp e force).2) := by
  cases hb : alookup dp e.transaction.sender with
  | none =>
    have hbd : (alookup dp e.transaction.sender).getD [] = [] := by
      rw [hb]
      rfl
    have h2 : (dpInsert dp e force).2
        = aset dp e.transaction.sender (bucketAdd e []) := by
      simp only [dpInsert, noncePoolInsert, hbd]
      rfl
    rw [h2]
    constructor
    · rw [dpUnpacked_aset_none dp _ _ hb, bucketUnpacked_bucketAdd]
      simp [bucketUnpacked]
    · intro hne q hq
      rcases mem_aset _ _ _ _ hq with h3 | h3
      · rw [h3]
        exact bucketAdd_ne_nil e []
      · exact hne q h3
  | some b =>
    have hbd : (alookup dp e.transaction.sender).getD [] = b := by
      rw [hb]
      rfl
    cases hold : bucketLookup b e.transaction.nonce with
    | none =>
      have h2 : (dpInsert dp e force).2
          = aset dp e.transaction.sender (bucketAdd e b) := by
        simp only [dpInsert, noncePoolInsert, hbd, hold]
      rw [h2]
      constructor
      · have h3 := dpUnpacked_aset_some dp e.transaction.sender b
          (bucketAdd e b) hb
        rw [bucketUnpacked_bucketAdd] at h3
        omega
      · intro hne q hq
        rcases mem_aset _ _ _ _ hq with h3 | h3
        · rw [h3]
          exact bucketAdd_ne_nil e b
        · exact hne q h3
    | some old =>
      exfalso
      have heq := dpInsert_occupied dp e old force b hb hold
      rw [heq] at h
      by_cases hcond : (force
          || decide (old.transaction.gasPrice < e.transaction.gasPrice)) = true
      · rw [if_pos hcond] at h
        exact nomatch h
      · rw [if_neg (by simpa using hcond)] at h
        exact nomatch h

theorem dpInsert_updated (dp : DeferredPool) (e : TxWithReadyInfo)
    (force : Bool) (old : TxWithReadyInfo)
    (h : (dpInsert dp e force).1 = .Updated old) :
    dpUnpackedCount (dpInsert dp e force).2 + (if old.packed then 0 else 1)
        = dpUnpackedCount dp + (if e.packed then 0 else 1) ∧
    (old.packed = false → 0 < dpUnpackedCount dp) ∧
    (BucketsNonempty dp → BucketsNonempty (dpInsert dp e force).2) := by
  cases hb : alookup dp e.transaction.sender with
  | none =>
    exfalso
    have hbd : (alookup dp e.transaction.sender).getD [] = [] := by
      rw [hb]
      rfl
    have h2 : (dpInsert dp e force).1 = .NewAdded := by
      simp only [dpInsert, noncePoolInsert, hbd]
      rfl
    rw [h2] at h
    exact nomatch h
  | some b =>
    have hbd : (alookup dp e.transaction.sender).getD [] = b := by
      rw [hb]
      rfl
    cases hold : bucketLookup b e.transaction.nonce with
    | none =>
      exfalso
      have h2 : (dpInsert dp e force).1 = .NewAdded := by
        simp only [dpInsert, noncePoolInsert, hbd, hold]
      rw [h2] at h
      exact nomatch h
    | some old2 =>
      have heq := dpInsert_occupied dp e old2 force b hb hold
      by_cases hcond : (force
          || decide (old2.transaction.gasPrice < e.transaction.gasPrice)) = true
      · rw [heq, if_pos hcond] at h ⊢
        dsimp only at h ⊢
        injection h with h3
        subst h3
        refine ⟨?_, ?_, ?_⟩
        · have h4 := dpUnpacked_aset_some dp e.transaction.sender b
            (bucketReplace e b) hb
          have h5 := bucketUnpacked_bucketReplace e b old2 hold
          cases hop : old2.packed <;> cases hep : e.packed <;>
            simp [hop, hep] at h5 ⊢ <;> omega
        · intro hop
          have hmem : old2 ∈ b := List.mem_of_find?_eq_some hold
          have h6 := bucketUnpacked_pos b old2 hmem hop
          have h7 := bucketUnpacked_le_dp dp e.transaction.sender b hb
          omega
        · intro hne q hq
          rcases mem_aset _ _ _ _ hq with h3 | h3
          · rw [h3]
            apply bucketReplace_ne_nil
            intro hc
            rw [hc] at hold
            exact nomatch hold
          · exact hne q h3
      · exfalso
        rw [heq, if_neg (by simpa using hcond)] at h
        exact nomatch h

theorem updateNB_fields (st : PoolState) (addr nonce balance now : Nat) :
    (updateNonceAndBalance st addr nonce balance now).deferredPool
        = st.deferredPool ∧
    (updateNonceAndBalance st addr nonce balance now).unpackedTransactionCount
        = st.unpackedTransactionCount := by
  unfold updateNonceAndBalance
  split <;> exact ⟨rfl, rfl⟩

theorem insertCore_newAdded_fields (st1 : PoolState) (tx : STx)
    (packed force : Bool) (stateNB : Option (Nat × Nat)) (sg ss now : Nat)
    (hr : (dpInsert st1.deferredPool ⟨tx, packed, sg, ss⟩ force).1
      = .NewAdded) :
    (insertCore st1 tx packed force stateNB sg ss now).2.deferredPool
        = (dpInsert st1.deferredPool ⟨tx, packed, sg, ss⟩ force).2 ∧
    (insertCore st1 tx packed force stateNB sg ss
        now).2.unpackedTransactionCount
      = (if packed then st1.unpackedTransactionCount
         else st1.unpackedTransactionCount + 1) := by
  constructor
  · simp only [insertCore, hr]
    rw [(updateNB_fields _ _ _ _ _).1]
  · simp only [insertCore, hr]
    rw [(updateNB_fields _ _ _ _ _).2]

theorem insertCore_updated_fields (st1 : PoolState) (tx : STx)
    (packed force : Bool) (stateNB : Option (Nat × Nat)) (sg ss now : Nat)
    (replaced : TxWithReadyInfo)
    (hr : (dpInsert st1.deferredPool ⟨tx, packed, sg, ss⟩ force).1
      = .Updated replaced) :
    (insertCore st1 tx packed force stateNB sg ss now).2.deferredPool
        = (dpInsert st1.deferredPool ⟨tx, packed, sg, ss⟩ force).2 ∧
    (insertCore st1 tx packed force stateNB sg ss
        now).2.unpackedTransactionCount
      = (if replaced.packed then st1.unpackedTransactionCount
         else st1.unpackedTransactionCount - 1)
        + (if packed then 0 else 1) := by
  constructor
  · simp only [insertCore, hr]
  · simp only [insertCore, hr]

theorem insertCore_countInv (st1 : PoolState) (tx : STx)
    (packed force : Bool) (stateNB : Option (Nat × Nat)) (sg ss now : Nat)
    (hinv : CountInv st1) :
    CountInv (insertCore st1 tx packed force stateNB sg ss now).2 := by
  rcases hr : (dpInsert st1.deferredPool ⟨tx, packed, sg, ss⟩ force).1
    with _ | replaced | r2
  · have hd := dpInsert_newAdded st1.deferredPool ⟨tx, packed, sg, ss⟩
      force hr
    have hf := insertCore_newAdded_fields st1 tx packed force stateNB sg ss
      now hr
    constructor
    · rw [hf.2, hf.1, hd.1, hinv.1]
      cases hep : packed <;> simp [hep]
    · rw [hf.1]
      exact hd.2 hinv.2
  · have hd := dpInsert_updated st1.deferredPool ⟨tx, packed, sg, ss⟩
      force replaced hr
    have hf := insertCore_updated_fields st1 tx packed force stateNB sg ss
      now replaced hr
    constructor
    · have h1 := hd.1
      rw [hf.2, hf.1, hinv.1]
      cases hop : replaced.packed
      case false =>
        have h2 := hd.2.1 hop
        cases hep : packed <;> simp [hop, hep] at h1 ⊢ <;> omega
      case true =>
        cases hep : packed <;> simp [hop, hep] at h1 ⊢ <;> omega
    · rw [hf.1]
      exact hd.2.2 hinv.2
  · have hres : (insertCore st1 tx packed force stateNB sg ss now).1
        = .Failed r2 := by
      simp only [insertCore, hr]
    have h2 := insertCore_failed_unchanged st1 tx packed force stateNB sg ss
      now r2 hres
    rw [h2.1]
    exact hinv

theorem gcEvict_unpacked (st : PoolState) (victim : GcNode)
    (gc2 : List GcNode) (now : Nat) :
    (gcEvict st victim gc2 now).unpackedTransactionCount
      = (if dpCheckPacked st.deferredPool victim.sender
            ((dpLowestTx st.deferredPool victim.sender).getD
              panicEntry).transaction.nonce
         then st.unpackedTransactionCount
         else st.unpackedTransactionCount - 1) := rfl

theorem gcEvict_countInv (st : PoolState) (victim : GcNode)
    (gc2 : List GcNode) (now : Nat) (hinv : CountInv st)
    (hres : dpContains st.deferredPool victim.sender = true) :
    CountInv (gcEvict st victim gc2 now) := by
  unfold dpContains at hres
  obtain ⟨b, hb⟩ := Option.isSome_iff_exists.mp hres
  obtain ⟨e, rest, rfl⟩ : ∃ e rest, b = e :: rest := by
    cases b with
    | nil => exact absurd rfl (hinv.2 _ (alookup_mem _ _ _ hb))
    | cons e rest => exact ⟨e, rest, rfl⟩
  have hlow : dpLowestTx st.deferredPool victim.sender = some e := by
    simp [dpLowestTx, hb, bucketLowest]
  have hcheck : dpCheckPacked st.deferredPool victim.sender
      e.transaction.nonce = e.packed := by
    unfold dpCheckPacked
    rw [hb]
    dsimp only
    rw [bucketLookup_cons_self e rest _ rfl]
  have hpos : e.packed = false → 0 < dpUnpackedCount st.deferredPool := by
    intro hp
    have h6 := bucketUnpacked_pos (e :: rest) e (by simp) hp
    have h7 := bucketUnpacked_le_dp st.deferredPool victim.sender
      (e :: rest) hb
    omega
  have hcnt : (gcEvict st victim gc2 now).unpackedTransactionCount
      = (if e.packed then st.unpackedTransactionCount
         else st.unpackedTransactionCount - 1) := by
    rw [gcEvict_unpacked, hlow]
    rw [show (some e).getD panicEntry = e from rfl, hcheck]
  cases rest with
  | nil =>
    have hrm : dpRemoveLowest st.deferredPool victim.sender
        = (some e, aerase st.deferredPool victim.sender) := by
      unfold dpRemoveLowest
      rw [hb]
    have hdp : (gcEvict st victim gc2 now).deferredPool
        = aerase st.deferredPool victim.sender := by
      rw [gcEvict_deferred, hrm]
    have hcount := dpUnpacked_aerase st.deferredPool victim.sender [e] hb
    have hbe : bucketUnpacked [e] = if e.packed then 0 else 1 := by
      cases hp : e.packed <;> simp [bucketUnpacked, hp]
    constructor
    · rw [hcnt, hdp, hinv.1]
      cases hp : e.packed
      case false =>
        have h8 := hpos hp
        simp [hp] at hbe ⊢
        omega
      case true =>
        simp [hp] at hbe ⊢
        omega
    · rw [hdp]
      intro q hq
      exact hinv.2 q ((aerase_sublist _ _).mem hq)
  | cons e2 r2 =>
    have hrm : dpRemoveLowest st.deferredPool victim.sender
        = (some e, aset st.deferredPool victim.sender (e2 :: r2)) := by
      unfold dpRemoveLowest
      rw [hb]
    have hdp : (gcEvict st victim gc2 now).deferredPool
        = aset st.deferredPool victim.sender (e2 :: r2) := by
      rw [gcEvict_deferred, hrm]
    have hcount := dpUnpacked_aset_some st.deferredPool victim.sender
      (e :: e2 :: r2) (e2 :: r2) hb
    have hsplit : bucketUnpacked (e :: e2 :: r2)
        = (if e.packed then 0 else 1) + bucketUnpacked (e2 :: r2) := by
      cases hp : e.packed <;>
        simp [bucketUnpacked, List.countP_cons, hp] <;> omega
    constructor
    · rw [hcnt, hdp, hinv.1]
      cases hp : e.packed
      case false =>
        have h8 := hpos hp
        simp [hp] at hsplit ⊢
        omega
      case true =>
        simp [hp] at hsplit ⊢
        omega
    · rw [hdp]
      intro q hq
      rcases mem_aset _ _ _ _ hq with h3 | h3
      · rw [h3]
        simp
      · exact hinv.2 q h3

theorem collectGarbageLoop_countInv (newTx : STx) (now : Nat) :
    ∀ (fuel : Nat) (st : PoolState), CountInv st →
      CountInv (collectGarbageLoop newTx now fuel st) := by
  intro fuel
  induction fuel with
  | zero =>
    intro st h
    exact h
  | succ f ih =>
    intro st hinv
    rw [collectGarbageLoop]
    by_cases hcond : (isFull st ∧ st.garbageCollector ≠ [])
    · rw [if_pos hcond]
      rcases hdr : drainSelect st.deferredPool newTx.sender newTx.gasPrice
          st.garbageCollector GCCheckCount newTx.gasPrice none []
        with ⟨victimO, popped, remaining⟩
      simp only [hdr]
      cases victimO with
      | none => exact hinv
      | some victim =>
        have hres : dpContains st.deferredPool victim.sender = true := by
          refine drainSelect_victim_resident st.deferredPool newTx.sender
            newTx.gasPrice st.garbageCollector GCCheckCount newTx.gasPrice
            none [] (fun v h => nomatch h) victim ?_
          rw [hdr]
        exact ih _ (gcEvict_countInv st victim _ now hinv hres)
    · rw [if_neg hcond]
      exact hinv

theorem insertWithout_countInv (st0 : PoolState) (tx : STx)
    (packed force : Bool) (stateNB : Option (Nat × Nat)) (sg ss now : Nat)
    (hinv : CountInv st0) :
    CountInv (insertWithout st0 tx packed force stateNB sg ss now).2 := by
  unfold insertWithout
  have hgc := collectGarbageLoop_countInv tx now (st0.txs.length + 1) st0 hinv
  split
  · exact insertCore_countInv st0 tx packed force stateNB sg ss now hinv
  · dsimp only
    split
    · exact hgc
    · exact insertCore_countInv _ tx packed force stateNB sg ss now hgc

theorem recalcWithState_fields (su : Nat) (st : PoolState) (addr : Nat)
    (nb : Nat × Nat) (now : Nat) :
    ∃ st2, recalcWithState su st addr (.ok nb) now = .ok st2 ∧
      st2.deferredPool = st.deferredPool ∧
      st2.unpackedTransactionCount = st.unpackedTransactionCount := by
  refine ⟨_, rfl, ?_, ?_⟩
  · dsimp only [recalcWithState]
    split <;> rfl
  · dsimp only [recalcWithState]
    split <;> rfl

theorem insertWRC_countInv (su : Nat) (st : PoolState) (tx : STx)
    (packed force : Bool) (sponsorRes nb1 nb2 : Except Unit (Nat × Nat))
    (now : Nat) (hinv : CountInv st) :
    CountInv (insertWithReadinessCheck su st tx packed force sponsorRes nb1
      nb2 now).2 := by
  cases sponsorRes with
  | error e => exact hinv
  | ok sgss =>
    obtain ⟨sg, ss⟩ := sgss
    cases nb1 with
    | error e => exact hinv
    | ok nb =>
      obtain ⟨sn, sb⟩ := nb
      have hw := insertWithout_countInv st tx packed force (some (sn, sb))
        sg ss now hinv
      by_cases hfar : sn + FurthestFutureNonceOffset ≤ tx.nonce
      · have he : (insertWithReadinessCheck su st tx packed force
            (.ok (sg, ss)) (.ok (sn, sb)) nb2 now).2 = st := by
          simp only [insertWithReadinessCheck, if_pos hfar]
        rw [he]
        exact hinv
      · by_cases hstale : (packed = false ∧ tx.nonce < sn)
        · have he : (insertWithReadinessCheck su st tx packed force
              (.ok (sg, ss)) (.ok (sn, sb)) nb2 now).2 = st := by
            simp only [insertWithReadinessCheck, if_neg hfar, if_pos hstale]
          rw [he]
          exact hinv
        · rcases hr1 : (insertWithout st tx packed force (some (sn, sb)) sg
              ss now).1 with _ | replaced | reason
          · cases nb2 with
            | error e =>
              have he : (insertWithReadinessCheck su st tx packed force
                  (.ok (sg, ss)) (.ok (sn, sb)) (.error e) now).2
                  = (insertWithout st tx packed force (some (sn, sb)) sg ss
                    now).2 := by
                simp only [insertWithReadinessCheck, if_neg hfar,
                  if_neg hstale, hr1]
                rfl
              rw [he]
              exact hw
            | ok nbv =>
              obtain ⟨st2, hrc, hdp, hcnt⟩ := recalcWithState_fields su
                (insertWithout st tx packed force (some (sn, sb)) sg ss
                  now).2 tx.sender nbv now
              have he : (insertWithReadinessCheck su st tx packed force
                  (.ok (sg, ss)) (.ok (sn, sb)) (.ok nbv) now).2 = st2 := by
                simp only [insertWithReadinessCheck, if_neg hfar,
                  if_neg hstale, hr1, hrc]
              rw [he]
              exact ⟨by rw [hcnt, hdp]; exact hw.1,
                by rw [hdp]; exact hw.2⟩
          · cases nb2 with
            | error e =>
              have he : (insertWithReadinessCheck su st tx packed force
                  (.ok (sg, ss)) (.ok (sn, sb)) (.error e) now).2
                  = (insertWithout st tx packed force (some (sn, sb)) sg ss
                    now).2 := by
                simp only [insertWithReadinessCheck, if_neg hfar,
                  if_neg hstale, hr1]
                rfl
              rw [he]
              exact hw
            | ok nbv =>
              obtain ⟨st2, hrc, hdp, hcnt⟩ := recalcWithState_fields su
                (insertWithout st tx packed force (some (sn, sb)) sg ss
                  now).2 tx.sender nbv now
              have he : (insertWithReadinessCheck su st tx packed force
                  (.ok (sg, ss)) (.ok (sn, sb)) (.ok nbv) now).2 = st2 := by
                simp only [insertWithReadinessCheck, if_neg hfar,
                  if_neg hstale, hr1, hrc]
              rw [he]
              exact ⟨by rw [hcnt, hdp]; exact hw.1,
                by rw [hdp]; exact hw.2⟩
          · have he : (insertWithReadinessCheck su st tx packed force
                (.ok (sg, ss)) (.ok (sn, sb)) nb2 now).2
                = (insertWithout st tx packed force (some (sn, sb)) sg ss
                  now).2 := by
              simp only [insertWithReadinessCheck, if_neg hfar,
                if_neg hstale, hr1]
            rw [he]
            exact hw

theorem recalcLocal_countInv (su : Nat) (st : PoolState) (addr : Nat)
    (h : CountInv st) : CountInv (recalcLocal su st addr) := h

theorem recalcFixed_countInv (su : Nat) (st : PoolState)
    (addr nonce balance now : Nat) (h : CountInv st) :
    CountInv (recalcFixed su st addr nonce balance now) := by
  have hf := updateNB_fields st addr nonce balance now
  constructor
  · show (updateNonceAndBalance st addr nonce balance
        now).unpackedTransactionCount
      = dpUnpackedCount (updateNonceAndBalance st addr nonce balance
        now).deferredPool
    rw [hf.1, hf.2]
    exact h.1
  · show BucketsNonempty (updateNonceAndBalance st addr nonce balance
      now).deferredPool
    rw [hf.1]
    exact h.2

theorem packLoop_countInv (su : Nat) (recheck : STx → PackingCheckResult)
    (numTxs blockGasLimit blockSizeLimit now : Nat) :
    ∀ (script : List Nat) (st : PoolState) (tg ts budget : Nat)
      (sel rec : List STx) (oc : Nat), CountInv st →
      CountInv (packLoop su recheck numTxs blockGasLimit blockSizeLimit now
        script st tg ts budget sel rec oc).2.2.1 := by
  intro script
  induction script with
  | nil =>
    intro st tg ts budget sel rec oc h
    exact h
  | cons rand rest ih =>
    intro st tg ts budget sel rec oc h
    rw [packLoop]
    split
    · exact h
    · exact h
    · rename_i tx rap2 hpop
      dsimp only
      by_cases hov : (blockGasLimit - tg < tx.gasLimit
          ∨ blockSizeLimit - ts < tx.rlpSize)
      · rw [if_pos hov]
        by_cases hbud : 0 < budget
        · rw [if_pos hbud]
          exact ih { st with readyAccountPool := rap2 } tg ts (budget - 1)
            sel (tx :: rec) (oc + 1) h
        · rw [if_neg hbud]
          exact h
      · rw [if_neg hov]
        rcases hchk : recheck tx with _ | _ | _
        · dsimp only
          by_cases hnum : numTxs ≤ sel.length + 1
          · rw [if_pos hnum]
            exact recalcLocal_countInv su _ tx.sender
              (insertWithout_countInv _ tx true true none _ _ now h)
          · rw [if_neg hnum]
            exact ih _ _ _ budget _ _ oc
              (recalcLocal_countInv su _ tx.sender
                (insertWithout_countInv _ tx true true none _ _ now h))
        · dsimp only
          exact ih _ tg ts budget sel (tx :: rec) oc h
        · dsimp only
          exact ih _ tg ts budget sel rec oc h

theorem foldl_preserve {α β : Type} (P : β → Prop) (f : β → α → β)
    (hstep : ∀ b a, P b → P (f b a)) :
    ∀ (l : List α) (b : β), P b → P (l.foldl f b) := by
  intro l
  induction l with
  | nil =>
    intro b h
    exact h
  | cons a rest ih =>
    intro b h
    rw [List.foldl_cons]
    exact ih _ (hstep b a h)

theorem packTransactions_countInv (su : Nat)
    (recheck : STx → PackingCheckResult) (st : PoolState)
    (numTxs blockGasLimit blockSizeLimit : Nat) (randScript : List Nat)
    (now : Nat) (hinv : CountInv st) :
    CountInv (packTransactions su recheck st numTxs blockGasLimit
      blockSizeLimit randScript now).2 := by
  unfold packTransactions
  split
  · exact hinv
  · dsimp only
    refine foldl_preserve CountInv _ ?_ _ _ (foldl_preserve CountInv _ ?_ _ _
      (packLoop_countInv su recheck numTxs blockGasLimit blockSizeLimit now
        randScript st 0 0 10 [] [] 0 hinv))
    · intro b tx h
      exact recalcLocal_countInv su _ tx.sender
        (insertWithout_countInv b tx false true none _ _ now h)
    · intro b tx h
      exact h

theorem notifyModifiedAccounts_countInv (su : Nat) (st : PoolState)
    (accounts : List (Nat × Nat × Nat)) (now : Nat) (hinv : CountInv st) :
    CountInv (notifyModifiedAccounts su st accounts now) := by
  unfold notifyModifiedAccounts
  refine foldl_preserve CountInv _ ?_ accounts st hinv
  intro b a h
  exact recalcFixed_countInv su b a.1 a.2.1 a.2.2 now h

/-- Pool states reachable from a fresh pool through the public mutating
entry points: `insert_transaction_with_readiness_check`, `collect_garbage`,
`pack_transactions`, and `notify_modified_accounts`. -/
inductive Reachable (su : Nat) : PoolState → Prop
  | empty (capacity txWeightScaling txWeightExp : Nat) :
      Reachable su (newPool capacity txWeightScaling txWeightExp)
  | insert (st : PoolState) (tx : STx) (packed force : Bool)
      (sponsorRes nb1 nb2 : Except Unit (Nat × Nat)) (now : Nat) :
      Reachable su st →
      Reachable su (insertWithReadinessCheck su st tx packed force
        sponsorRes nb1 nb2 now).2
  | gc (st : PoolState) (tx : STx) (now : Nat) :
      Reachable su st → Reachable su (collectGarbage st tx now)
  | pack (st : PoolState) (recheck : STx → PackingCheckResult)
      (numTxs blockGasLimit blockSizeLimit : Nat) (randScript : List Nat)
      (now : Nat) :
      Reachable su st →
      Reachable su (packTransactions su recheck st numTxs blockGasLimit
        blockSizeLimit randScript now).2
  | notify (st : PoolState) (accounts : List (Nat × Nat × Nat)) (now : Nat) :
      Reachable su st → Reachable su (notifyModifiedAccounts su st accounts
        now)

/-- C8: in every pool state reachable from a fresh pool through the public
mutating operations, `unpacked_transaction_count` equals the number of
deferred-pool entries whose `packed` flag is false (spec invariant I3): the
counter is incremented on unpacked inserts, adjusted on replacements, and
decremented when an unpacked transaction is evicted. -/
theorem claim_C8 (su : Nat) (st : PoolState) (h : Reachable su st) :
    st.unpackedTransactionCount = dpUnpackedCount st.deferredPool := by
  have hinv : CountInv st := by
    induction h with
    | empty c s e => exact ⟨rfl, fun p hp => nomatch hp⟩
    | insert st1 tx packed force sr nb1 nb2 now hr ih =>
      exact insertWRC_countInv su st1 tx packed force sr nb1 nb2 now ih
    | gc st1 tx now hr ih =>
      exact collectGarbageLoop_countInv tx now (st1.txs.length + 1) st1 ih
    | pack st1 recheck numTxs bgl bsl script now hr ih =>
      exact packTransactions_countInv su recheck st1 numTxs bgl bsl script
        now ih
    | notify st1 accounts now hr ih =>
      exact notifyModifiedAccounts_countInv su st1 accounts now ih
  exact hinv.1

theorem claim_C8_witness :
    (insertWithReadinessCheck 1 (newPool 4 1 1) (smallTx 3) false false
        (.ok (0, 0)) (.ok (0, 1000)) (.ok (0, 1000))
        0).2.unpackedTransactionCount
      = dpUnpackedCount (insertWithReadinessCheck 1 (newPool 4 1 1)
        (smallTx 3) false false (.ok (0, 0)) (.ok (0, 1000)) (.ok (0, 1000))
        0).2.deferredPool :=
  claim_C8 1 _ (Reachable.insert (newPool 4 1 1) (smallTx 3) false false
    (.ok (0, 0)) (.ok (0, 1000)) (.ok (0, 1000)) 0
    (Reachable.empty 4 1 1))

end ConfluxTxPool
